import Mathlib

/-!
Verification of the codex-history session manager core
(`vscode-extension/src/core/historyManager.ts`, `dist/historyManager.js`,
`core/state.ts`, `core/paths.ts`) against its specification.

Modelling conventions
* A JavaScript string is modelled as a `List Char` (`Str`); the JS string
  methods used by the code (`toLowerCase`, `trim`, `includes`, `startsWith`,
  `split`, `substring`-truncation) are re-implemented as executable functions
  on character lists.
* A line of a JSONL file is a `RawLine`: the raw characters of the line
  together with the result of `JSON.parse` on it (`none` = parse failure).
  `JSON.parse` itself is external to the program; the fields the program
  reads from a parsed history line are collected in `JsonLine`.
* Filesystem paths are lists of path components (`Path`); `path.join`,
  `path.relative`, `path.basename`, `path.dirname` are modelled on
  component lists.  `String.prototype.includes` applied to a whole path is
  modelled component-wise (`pathIncludes`).
* The mutable on-disk state (transcript files, `history.jsonl`, `state.json`)
  is a `World` record; operations are state transformers on it.  Disk writes
  of the state file are counted in `StateFile.writes`.
* `Date` parsing and the two capture-group regular expressions of
  `parseSessionFile` are opaque engine services; definitions take them as
  explicit function arguments (`dp`, `rm`), so every theorem holds for all
  their behaviours.
-/

namespace CodexHist

/-- JS strings as lists of characters. -/
abbrev Str := List Char

/-- Characters of a Lean string literal (used to write JS string constants). -/
def toStr (s : String) : Str := s.data

/-- Model of `String.prototype.toLowerCase` (ASCII case folding, as exercised here). -/
def lowerS (s : Str) : Str := s.map Char.toLower

/-- Whitespace test used by `trim` and `split(/\s+/)`. -/
def isWsC (c : Char) : Bool := c.isWhitespace

/-- Model of `String.prototype.trim`. -/
def trimS (s : Str) : Str := ((s.dropWhile isWsC).reverse.dropWhile isWsC).reverse

/-- Model of `String.prototype.startsWith`. -/
def startsWithS (s pat : Str) : Bool := pat.isPrefixOf s

/-- Model of `String.prototype.includes`: `pat` occurs as a contiguous substring of `s`. -/
def includesS (s pat : Str) : Bool :=
  match s with
  | [] => pat.isEmpty
  | _ :: t => pat.isPrefixOf s || includesS t pat

/-- Helper for `split(/\s+/)`: the maximal whitespace-free words of `s`. -/
def wordsOf (s : Str) (cur : Str) : List Str :=
  match s with
  | [] => if cur = [] then [] else [cur.reverse]
  | c :: t =>
    if isWsC c then (if cur = [] then wordsOf t [] else cur.reverse :: wordsOf t [])
    else wordsOf t (c :: cur)

/-- Model of `search.toLowerCase().split(/\s+/).filter(t => t.length > 0)`
(historyManager.ts line 721): the lower-cased whitespace-separated terms. -/
def splitTerms (s : Str) : List Str := wordsOf (lowerS s) []

/-- JS `a || b` for an optional string `a` (`undefined` and `''` are falsy). -/
def jsOr (a : Option Str) (b : Str) : Str :=
  match a with
  | some s => if s = [] then b else s
  | none => b

/-- JS truthiness of an optional string. -/
def truthyS (a : Option Str) : Bool :=
  match a with
  | some s => !s.isEmpty
  | none => false

/-- JS `x || d` for an optional integer (`undefined` and `0` are falsy),
used for `line.turn_count || 1`. -/
def jsOrInt (a : Option Int) (d : Int) : Int :=
  match a with
  | some n => if n = 0 then d else n
  | none => d

/-- Model of `text.length > n ? text.substring(0, n) + '...' : text` (truncation used at
200 chars for `truncatedText` and 80 chars inside `cleanFirstText`). -/
def truncateJs (n : Nat) (s : Str) : Str :=
  if s.length > n then s.take n ++ toStr "..." else s

/-- The two chained replaces plus `trim` of `cleanFirstText`
(historyManager.ts lines 738-746): line-break runs become spaces, whitespace
runs collapse to one space, ends are trimmed; net effect: the words of the
string joined by single spaces. -/
def collapseWs (s : Str) : Str :=
  match wordsOf s [] with
  | [] => []
  | w :: ws => ws.foldl (fun acc x => acc ++ ' ' :: x) w

/-- Model of `cleanFirstText` (historyManager.ts lines 738-746 and 1159-1167):
falsy input gives `''`; otherwise collapse whitespace and truncate at 80. -/
def cleanFirstText (s : Str) : Str :=
  if s = [] then [] else truncateJs 80 (collapseWs s)

/-- The `'(空会话)'` empty-session placeholder string. -/
def emptyPlaceholder : Str := toStr "(空会话)"

/-- Model of `isAgentsText` (historyManager.ts lines 1656-1666): case-insensitive
boilerplate heuristic over the text of a history line. -/
def isAgentsText (s : Str) : Bool :=
  if s = [] then false
  else
    let n := lowerS s
    includesS n (toStr "agents.md") ||
    includesS n (toStr "系统提示词") ||
    includesS n (toStr "你是一个资深全栈技术专家") ||
    startsWithS n (toStr "<instructions>") ||
    includesS n (toStr "mcp 调用规则")

/-! ## The history log -/

/-- The fields the manager reads from one parsed `history.jsonl` JSON object.
Every field may be absent (`undefined`). Timestamps and turn counts are JSON
numbers, modelled as integers. -/
structure JsonLine where
  session_id : Option Str := none
  ts : Option Int := none
  text : Option Str := none
  first_text : Option Str := none
  last_text : Option Str := none
  turn_count : Option Int := none
  is_archived : Option Bool := none
deriving DecidableEq, Repr

/-- One physical line of `history.jsonl`: its raw characters and the result of
`JSON.parse` on it (`none` when parsing throws). -/
structure RawLine where
  text : Str
  json : Option JsonLine
deriving DecidableEq, Repr

/-- The `HistoryLine` interface (historyManager.ts lines 677-685) as produced
by `readHistoryLines`: `session_id` and `ts` are present, the rest optional. -/
structure HistoryLine where
  session_id : Str
  ts : Int
  text : Option Str := none
  first_text : Option Str := none
  last_text : Option Str := none
  turn_count : Option Int := none
  is_archived : Option Bool := none
deriving DecidableEq, Repr

/-- Model of `readHistoryLines` (historyManager.ts lines 1528-1560) applied to the
lines of the log file: keep objects with truthy `session_id` and `ts` and at
least one of `text`/`first_text`/`last_text` defined; when `hideAgents`,
additionally drop lines whose `text || last_text || first_text || ''`
matches `isAgentsText`. -/
def readHistoryLines (hideAgents : Bool) (log : List RawLine) : List HistoryLine :=
  log.filterMap fun l =>
    match l.json with
    | none => none
    | some o =>
      match o.session_id, o.ts with
      | some sid, some t =>
        if sid ≠ [] ∧ t ≠ 0 ∧ (o.text ≠ none ∨ o.first_text ≠ none ∨ o.last_text ≠ none) then
          let checkText := jsOr o.text (jsOr o.last_text (jsOr o.first_text []))
          if hideAgents && isAgentsText checkText then none
          else some ⟨sid, t, o.text, o.first_text, o.last_text, o.turn_count, o.is_archived⟩
        else none
      | _, _ => none

/-- The per-line decision of `rewriteHistoryExcluding` (historyManager.ts
lines 1575-1591): blank lines are skipped, unparseable lines are written
through, parseable lines are written unless their `session_id` is in the
deletion set. -/
def keepLine (ids : List Str) (l : RawLine) : Bool :=
  if trimS l.text = [] then false
  else
    match l.json with
    | none => true
    | some o =>
      match o.session_id with
      | some sid => !ids.contains sid
      | none => true

/-- The per-line counting decision of `rewriteHistoryExcluding`: a line
increments `removed` exactly when it is non-blank, parses, and its
`session_id` is in the deletion set. -/
def dropCounted (ids : List Str) (l : RawLine) : Bool :=
  if trimS l.text = [] then false
  else
    match l.json with
    | none => false
    | some o =>
      match o.session_id with
      | some sid => ids.contains sid
      | none => false

/-- One step of the streaming loop of `rewriteHistoryExcluding`. -/
def rewriteStep (ids : List Str) (acc : Nat × List RawLine) (l : RawLine) : Nat × List RawLine :=
  if trimS l.text = [] then acc
  else
    match l.json with
    | none => (acc.1, acc.2 ++ [l])
    | some o =>
      match o.session_id with
      | some sid => if ids.contains sid then (acc.1 + 1, acc.2) else (acc.1, acc.2 ++ [l])
      | none => (acc.1, acc.2 ++ [l])

/-- Model of `rewriteHistoryExcluding` (historyManager.ts lines 1562-1605), as a pure
function from the deletion set and the log lines to the removed-count and the
lines written to the replacement file (each written line is the original
raw line, unchanged). -/
def rewriteHistoryExcluding (ids : List Str) (log : List RawLine) : Nat × List RawLine :=
  log.foldl (rewriteStep ids) (0, [])

/-! Characterization of the rewrite loop. -/

theorem rewriteStep_eq (ids : List Str) (acc : Nat × List RawLine) (l : RawLine) :
    rewriteStep ids acc l =
      (acc.1 + (if dropCounted ids l then 1 else 0),
       acc.2 ++ (if keepLine ids l then [l] else [])) := by
  unfold rewriteStep dropCounted keepLine
  by_cases h : trimS l.text = [] <;> simp [h]
  cases hj : l.json with
  | none => simp
  | some o =>
    cases hs : o.session_id with
    | none => simp [hs]
    | some sid => by_cases hc : sid ∈ ids <;> simp [hs, hc]

theorem rewrite_foldl_eq (ids : List Str) (log : List RawLine) (acc : Nat × List RawLine) :
    log.foldl (rewriteStep ids) acc =
      (acc.1 + log.countP (dropCounted ids), acc.2 ++ log.filter (keepLine ids)) := by
  induction log generalizing acc with
  | nil => simp
  | cons l t ih =>
    rw [List.foldl_cons, rewriteStep_eq, ih]
    by_cases hk : keepLine ids l <;> by_cases hd : dropCounted ids l <;>
      simp [hk, hd, List.countP_cons, List.filter_cons] <;> omega

/-- The rewrite keeps exactly the lines passed by `keepLine`, in order, and
counts exactly the lines matched by `dropCounted`. -/
theorem rewriteHistoryExcluding_eq (ids : List Str) (log : List RawLine) :
    rewriteHistoryExcluding ids log =
      (log.countP (dropCounted ids), log.filter (keepLine ids)) := by
  unfold rewriteHistoryExcluding
  rw [rewrite_foldl_eq]
  simp

/-! ## Paths -/

/-- A filesystem path as a list of components. -/
abbrev Path := List Str

/-- Model of `path.basename`. -/
def basenameP (p : Path) : Str := p.getLast?.getD []

/-- Model of `path.dirname`. -/
def dirnameP (p : Path) : Path := p.dropLast

/-- Component-wise model of `String.prototype.includes` applied to a whole
path string (used for the `file.includes('archived_sessions')` checks). -/
def pathIncludes (p : Path) (s : Str) : Bool := p.any fun c => includesS c s

/-- Test that `p` is inside the directory `d` (`d` is a component-prefix of `p`). -/
def isUnder (d : Path) (p : Path) : Bool := d.isPrefixOf p

/-- Length of the common component-prefix of two paths. -/
def commonLen : Path → Path → Nat
  | a :: as, b :: bs => if a = b then commonLen as bs + 1 else 0
  | _, _ => 0

/-- Model of `path.relative(from, to)` for normalized absolute paths: drop the common
component-prefix, one `..` per remaining `from` component, then the remaining
`to` components. -/
def pathRelative (f t : Path) : Path :=
  let n := commonLen f t
  List.replicate (f.length - n) (toStr "..") ++ t.drop n

/-- Resolution of `..` components as performed by `path.join`. -/
def normComps (p : Path) : Path :=
  p.foldl (fun acc c => if c = toStr ".." then acc.dropLast else acc ++ [c]) []

/-- Model of `path.join(base, rel)` where `rel` may carry `..` components. -/
def joinP (base : Path) (rel : Path) : Path := normComps (base ++ rel)

theorem commonLen_append (d rel : Path) : commonLen d (d ++ rel) = d.length := by
  induction d with
  | nil => cases rel <;> rfl
  | cons a as ih => simpa [commonLen] using ih

theorem pathRelative_append (d rel : Path) : pathRelative d (d ++ rel) = rel := by
  unfold pathRelative
  rw [commonLen_append]
  simp

theorem normComps_no_dotdot (p : Path) (h : ∀ c ∈ p, c ≠ toStr "..") :
    normComps p = p := by
  unfold normComps
  have key : ∀ acc, p.foldl (fun acc c => if c = toStr ".." then acc.dropLast else acc ++ [c]) acc
      = acc ++ p := by
    induction p with
    | nil => simp
    | cons a t ih =>
      intro acc
      have ha : a ≠ toStr ".." := h a (by simp)
      rw [List.foldl_cons, if_neg ha, ih (fun c hc => h c (by simp [hc]))]
      simp
  simpa using key []

theorem joinP_no_dotdot (base rel : Path)
    (hb : ∀ c ∈ base, c ≠ toStr "..") (hr : ∀ c ∈ rel, c ≠ toStr "..") :
    joinP base rel = base ++ rel := by
  unfold joinP
  apply normComps_no_dotdot
  intro c hc
  rcases List.mem_append.mp hc with h | h
  · exact hb c h
  · exact hr c h

/-! ## The state store (`core/state.ts` / `dist/state.js`) -/

/-- Lookup in an assoc-list model of a plain JS object used as a map. -/
def lookupKey (m : List (Str × Str)) (k : Str) : Option Str :=
  (m.find? fun p => p.1 = k).map (·.2)

/-- Model of `obj[k] = v`: update in place if the key exists, else append. -/
def setKey (m : List (Str × Str)) (k v : Str) : List (Str × Str) :=
  if m.any (fun p => p.1 = k) then m.map (fun p => if p.1 = k then (k, v) else p)
  else m ++ [(k, v)]

/-- Model of `delete obj[k]`. -/
def delKey (m : List (Str × Str)) (k : Str) : List (Str × Str) :=
  m.filter fun p => ¬ p.1 = k

/-- The persisted `ManagerState` plus a count of `persist()` disk writes. -/
structure StateFile where
  pinned : List Str
  remarks : List (Str × Str)
  writes : Nat
deriving DecidableEq, Repr

/-- Model of `StateStore.pin` (state.ts lines 165-171): unshift onto the pinned list
and persist, unless already pinned. -/
def statePin (sid : Str) (s : StateFile) : StateFile :=
  if s.pinned.contains sid then s
  else { s with pinned := sid :: s.pinned, writes := s.writes + 1 }

/-- Model of `StateStore.unpin` (state.ts lines 173-180): filter the pinned list and
persist only if it shrank. -/
def stateUnpin (sid : Str) (s : StateFile) : StateFile :=
  let next := s.pinned.filter fun i => ¬ i = sid
  if next.length ≠ s.pinned.length then { s with pinned := next, writes := s.writes + 1 }
  else s

/-- Model of `StateStore.setRemark` (state.ts lines 192-202): trim the input; return
without writing when the stored value strictly equals the trimmed value
(`undefined === next` is false, so an absent key never short-circuits);
otherwise store the trimmed value, or delete the key when it is empty, and
persist. -/
def stateSetRemark (sid text : Str) (s : StateFile) : StateFile :=
  let next := trimS text
  if lookupKey s.remarks sid = some next then s
  else
    { s with
      remarks := if next ≠ [] then setKey s.remarks sid next else delKey s.remarks sid,
      writes := s.writes + 1 }

/-- Model of `remarks[id] || undefined`: the remark attached to a summary. -/
def remarkOf (remarks : List (Str × Str)) (sid : Str) : Option Str :=
  match lookupKey remarks sid with
  | some v => if v = [] then none else some v
  | none => none

/-! ## Transcript files and `parseSessionFile` -/

/-- A JSON value that may be a number or a string (the `timestamp` and `id`
fields of the first transcript line). -/
inductive JVal where
  | num (n : Int)
  | str (s : Str)
deriving DecidableEq, Repr

/-- JS truthiness for an optional number-or-string. -/
def truthyJ (v : Option JVal) : Bool :=
  match v with
  | some (.num n) => n ≠ 0
  | some (.str s) => s ≠ []
  | none => false

/-- JS `a || b` on optional number-or-string values. -/
def jsOrJ (a b : Option JVal) : Option JVal := if truthyJ a then a else b

/-- String coercion of a number-or-string value. -/
def jvalStr (v : JVal) : Str :=
  match v with
  | .num n => toStr (toString n)
  | .str s => s

/-- One item of a `response_item` content array (only `.text` is read here). -/
structure JItem where
  text : Option Str := none
deriving DecidableEq, Repr

/-- The `content` field of a transcript payload: a string (`user_item`) or an
array of items (`response_item`). -/
inductive JContent where
  | str (s : Str)
  | arr (items : List JItem)
deriving DecidableEq, Repr

/-- The payload fields read from a transcript event. -/
structure TPayload where
  type : Option Str := none
  message : Option Str := none
  content : Option JContent := none
  role : Option Str := none
deriving DecidableEq, Repr

/-- The fields read from one parsed transcript JSON line. -/
structure TJson where
  timestamp : Option JVal := none
  id : Option JVal := none
  type : Option Str := none
  payload : Option TPayload := none
deriving DecidableEq, Repr

/-- One physical line of a transcript file with its `JSON.parse` result. -/
structure TLine where
  text : Str
  json : Option TJson
deriving DecidableEq, Repr

/-- A transcript file: its path and its lines. -/
structure Transcript where
  path : Path
  lines : List TLine
deriving DecidableEq, Repr

/-- Model of `isSystemPrompt` (historyManager.ts lines 1151-1156). -/
def isSystemPrompt (s : Str) : Bool :=
  let lower := lowerS s
  includesS lower (toStr "you are in a project") ||
  includesS lower (toStr "agents.md") ||
  includesS lower (toStr "system:")

/-- Character class `[\d-T]` of the rollout-filename regular expression
`^rollout-[\d-T]+-` used by `replace` at historyManager.ts line 1142. -/
def isRolloutChar (c : Char) : Bool := c.isDigit || c = '-' || c = 'T'

/-- Strip the leading `rollout-[\d-T]+-` match of a transcript filename
(historyManager.ts line 1142).  After `rollout-`, the regex greedily consumes
digits, `-` and `T` and must end on a final `-`; with backtracking, the match
removes `rollout-` plus the longest prefix of such characters that ends in
`-` and has at least one character before that `-`: the largest `k` below the
maximal run with `rest[k] = '-'` and `k ≥ 1`. -/
def stripRolloutId (name : Str) : Str :=
  if (toStr "rollout-").isPrefixOf name then
    let rest := name.drop 8
    let run := (rest.takeWhile isRolloutChar).length
    let ks := (List.range run).filter fun k => 1 ≤ k ∧ rest.getD k ' ' = '-'
    match ks.max? with
    | some k => rest.drop (k + 1)
    | none => name
  else name

/-- Model of `replace(/\.jsonl$/, '')`. -/
def stripJsonlExt (s : Str) : Str :=
  if (toStr ".jsonl").isSuffixOf s then s.take (s.length - 6) else s

/-- Accumulator of the extraction loop of `parseSessionFile`. -/
structure ExtractAcc where
  firstText : Str := []
  lastText : Str := []
  turnCount : Int := 0
deriving DecidableEq, Repr

/-- One iteration of the extraction loop of `parseSessionFile`
(historyManager.ts lines 1169-1221), for one parseable transcript line.
`rm` is the engine service for `message.match(/##\s*My request for
Codex:\s*(.+)$/s)`, returning the first capture group.  The `event_msg`
branch is an independent `if`; `user_item` and `response_item` form an
`if`/`else if` chain.  In the `user_item` branch the source reads
`parsed.payload.content` as a string; a non-string content value (which
would make the JS throw inside the surrounding `try` and skip the line)
is modelled as skipping the branch. -/
def extractStep (rm : Str → Option Str) (acc : ExtractAcc) (j : TJson) : ExtractAcc :=
  let pl := j.payload.getD {}
  let acc1 :=
    if j.type = some (toStr "event_msg") ∧ pl.type = some (toStr "user_message") then
      let message := jsOr pl.message []
      let extracted :=
        match rm message with
        | some cap => if cap ≠ [] then trimS cap else trimS message
        | none => trimS message
      if ¬ isSystemPrompt extracted then
        { acc with
          firstText := if acc.firstText = [] then extracted else acc.firstText,
          turnCount := acc.turnCount + 1 }
      else acc
    else acc
  if j.type = some (toStr "user_item") then
    match pl.content with
    | some (.str text) =>
      if text ≠ [] ∧ ¬ isSystemPrompt text then
        { acc1 with
          firstText := if acc1.firstText = [] then text else acc1.firstText,
          lastText := text,
          turnCount := acc1.turnCount + 1 }
      else acc1
    | _ => acc1
  else if j.type = some (toStr "response_item") ∧ pl.role = some (toStr "user") then
    match pl.content with
    | some (.arr (item :: _)) =>
      match item.text with
      | some tx =>
        if tx ≠ [] then
          if isSystemPrompt tx then acc1
          else
            let first :=
              match rm tx with
              | some cap => if cap ≠ [] ∧ acc1.firstText = [] then trimS cap else acc1.firstText
              | none => acc1.firstText
            { acc1 with firstText := first, turnCount := acc1.turnCount + 1 }
        else acc1
      | none => acc1
    | _ => acc1
  else acc1

/-- Model of `parseSessionFile` (historyManager.ts lines 1106-1233).  `dp` is the
engine service for `new Date(string).getTime()` (`none` = `NaN`); `rm` as in
`extractStep`.  Returns the single history record for the file, or `none`
for an empty file, a file with no parseable line, or a missing/zero/`NaN`
timestamp. -/
def parseSessionFile (dp : Str → Option Int) (rm : Str → Option Str)
    (f : Transcript) : Option HistoryLine :=
  let lines := f.lines.filter fun l => l.text ≠ []
  if lines = [] then none
  else
    match lines.findSome? (·.json), lines.reverse.findSome? (·.json) with
    | some firstLine, some _ =>
      let tsVal : Option Int :=
        match jsOrJ firstLine.timestamp firstLine.id with
        | some (.num n) => some n
        | some (.str s) => dp s
        | none => none
      match tsVal with
      | none => none
      | some ts =>
        if ts = 0 then none
        else
          let sessionId :=
            if truthyJ firstLine.id then jvalStr (firstLine.id.getD (.num 0))
            else stripJsonlExt (stripRolloutId (basenameP f.path))
          let isArch := pathIncludes f.path (toStr "archived_sessions")
          let acc := (lines.filterMap (·.json)).foldl (extractStep rm) {}
          let cleanedFirstText := cleanFirstText (jsOr (some acc.firstText) emptyPlaceholder)
          some
            { session_id := sessionId
              ts := ts
              first_text := some cleanedFirstText
              last_text := some (jsOr (some acc.lastText) cleanedFirstText)
              turn_count := some acc.turnCount
              is_archived := some isArch }
    | _, _ => none

/-! ## Rendering history records back to JSONL -/

/-- JSON string escaping as performed by `JSON.stringify` (the characters
relevant here). -/
def jsonEscape (s : Str) : Str :=
  s.foldr
    (fun c acc =>
      (if c = '"' || c = '\\' then ['\\', c]
       else if c = '\n' then toStr "\\n"
       else if c = '\r' then toStr "\\r"
       else if c = '\t' then toStr "\\t"
       else [c]) ++ acc) []

/-- A JSON string literal. -/
def quoteJson (s : Str) : Str := '"' :: (jsonEscape s ++ ['"'])

/-- Model of `JSON.stringify` of one history record, with the key order of the object
literals built by `parseSessionFile` / `readHistoryLines`; `undefined`
(absent) fields are omitted, as `JSON.stringify` does. -/
def renderHistoryLine (h : HistoryLine) : Str :=
  let fields : List (Option (Str × Str)) :=
    [ some (toStr "session_id", quoteJson h.session_id),
      some (toStr "ts", toStr (toString h.ts)),
      h.text.map (fun v => (toStr "text", quoteJson v)),
      h.first_text.map (fun v => (toStr "first_text", quoteJson v)),
      h.last_text.map (fun v => (toStr "last_text", quoteJson v)),
      h.turn_count.map (fun v => (toStr "turn_count", toStr (toString v))),
      h.is_archived.map (fun v => (toStr "is_archived", toStr (toString v))) ]
  let body := (fields.filterMap id).map fun p => quoteJson p.1 ++ ':' :: p.2
  '\x7b' :: ((match body with
           | [] => []
           | b :: bs => bs.foldl (fun acc x => acc ++ ',' :: x) b) ++ ['\x7d'])

/-- The bytes `stream.write(JSON.stringify(line) + '\n')` appends for a list
of records. -/
def renderLog (hs : List HistoryLine) : Str :=
  (hs.map fun h => renderHistoryLine h ++ ['\n']).flatten

/-- The `RawLine` a freshly serialized record becomes when the log is read
back (`JSON.parse` recovers exactly the written fields). -/
def toRaw (h : HistoryLine) : RawLine :=
  { text := renderHistoryLine h
    json := some
      { session_id := some h.session_id
        ts := some h.ts
        text := h.text
        first_text := h.first_text
        last_text := h.last_text
        turn_count := h.turn_count
        is_archived := h.is_archived } }

/-! ## The filesystem world -/

/-- The mutable on-disk state the manager touches: the transcript store (one
entry per session id, in directory-scan order — `findSessionFile` locates a
session's file by the id embedded in its filename, modelled as the entry
key), the history log (its lines, an existence flag and its `fs.stat` byte
size), and the persisted pin/remark state. -/
structure World where
  files : List (Str × Transcript)
  log : List RawLine
  logExists : Bool
  logSize : Int
  st : StateFile
deriving DecidableEq, Repr

/-- The transcript located for a session id. -/
def lookupT (files : List (Str × Transcript)) (sid : Str) : Option Transcript :=
  (files.find? fun e => e.1 = sid).map (·.2)

/-- Model of `archived_sessions` next to the sessions directory
(`path.join(path.dirname(sessionsDir), 'archived_sessions')`). -/
def archivedDirOf (sd : Path) : Path := dirnameP sd ++ [toStr "archived_sessions"]

/-- Model of `findSessionFile` (historyManager.ts lines 799-898): search the sessions
tree, then the archived tree; a file found only in the trash tree produces a
warning and `null`, so it reports not-found. -/
def findSessionFile (sd : Path) (files : List (Str × Transcript)) (sid : Str) : Option Path :=
  match lookupT files sid with
  | none => none
  | some t =>
    if isUnder sd t.path then some t.path
    else if isUnder (archivedDirOf sd) t.path then some t.path
    else none

/-- Model of `findSessionFile` of the CLI build (dist/historyManager.js lines 58-65):
glob over the sessions directory only. -/
def findSessionFileCli (sd : Path) (files : List (Str × Transcript)) (sid : Str) : Option Path :=
  match lookupT files sid with
  | some t => if isUnder sd t.path then some t.path else none
  | none => none

/-- Model of `fs.move(file, dest)`: the session's transcript changes path. -/
def moveFile (files : List (Str × Transcript)) (sid : Str) (dest : Path) :
    List (Str × Transcript) :=
  files.map fun e => if e.1 = sid then (e.1, { e.2 with path := dest }) else e

/-- Iteration order of `new Set(sessionIds)`: first occurrences, in order. -/
def jsSetAux (seen : List Str) : List Str → List Str
  | [] => []
  | a :: t => if seen.contains a then jsSetAux seen t else a :: jsSetAux (a :: seen) t

/-- The deduplicated id list a JS `Set` iterates over. -/
def jsSetList (l : List Str) : List Str := jsSetAux [] l

/-- The result record of `deleteSessions`. -/
structure DeleteResult where
  removedHistory : Nat
  removedFiles : List Path
  notFoundFiles : List Str
deriving DecidableEq, Repr

/-- Accumulator of the move loop of `deleteSessions`. -/
structure MoveAcc where
  notFound : List Str
  removed : List Path
  w : World
deriving DecidableEq, Repr

/-- One iteration of the move loop of the extension's `deleteSessions`
(historyManager.ts lines 1351-1362): locate the file, report it not-found or
move it into the trash tree at `path.join(trashDir, 'sessions',
path.relative(sessionsDir, file))`. -/
def deleteMoveStep (sd td : Path) (acc : MoveAcc) (sid : Str) : MoveAcc :=
  match findSessionFile sd acc.w.files sid with
  | none => { acc with notFound := acc.notFound ++ [sid] }
  | some p =>
    let dest := joinP (td ++ [toStr "sessions"]) (pathRelative sd p)
    { acc with
      removed := acc.removed ++ [p],
      w := { acc.w with files := moveFile acc.w.files sid dest } }

/-- Model of `deleteSessions` of the extension core (historyManager.ts lines
1345-1370): move each located file to the trash tree, then rewrite the log
excluding the deleted ids.  Pin and remark state is deliberately not
touched (source comment at line 1367). -/
def deleteSessionsExt (sd td : Path) (ids : List Str) (w : World) : DeleteResult × World :=
  let fin := (jsSetList ids).foldl (deleteMoveStep sd td) ⟨[], [], w⟩
  let rw := if fin.w.logExists then rewriteHistoryExcluding ids fin.w.log else (0, fin.w.log)
  (⟨rw.1, fin.removed, fin.notFound⟩, { fin.w with log := rw.2 })

/-- The move loop of the CLI `deleteSessions`, which locates files with the
CLI `findSessionFile`. -/
def deleteMoveStepCli (sd td : Path) (acc : MoveAcc) (sid : Str) : MoveAcc :=
  match findSessionFileCli sd acc.w.files sid with
  | none => { acc with notFound := acc.notFound ++ [sid] }
  | some p =>
    let dest := joinP (td ++ [toStr "sessions"]) (pathRelative sd p)
    { acc with
      removed := acc.removed ++ [p],
      w := { acc.w with files := moveFile acc.w.files sid dest } }

/-- Model of `deleteSessions` of the CLI core (dist/historyManager.js lines 103-128):
move, rewrite, then `unpin` and `setRemark(sessionId, '')` for every id of
the deletion set. -/
def deleteSessionsCli (sd td : Path) (ids : List Str) (w : World) : DeleteResult × World :=
  let fin := (jsSetList ids).foldl (deleteMoveStepCli sd td) ⟨[], [], w⟩
  let rw := if fin.w.logExists then rewriteHistoryExcluding ids fin.w.log else (0, fin.w.log)
  let st := (jsSetList ids).foldl (fun st sid => stateSetRemark sid [] (stateUnpin sid st)) fin.w.st
  (⟨rw.1, fin.removed, fin.notFound⟩, { fin.w with log := rw.2, st := st })

/-! ## Index rebuild and incremental append -/

/-- Descending-timestamp order of the `newHistoryLines.sort((a, b) => b.ts -
a.ts)` comparator (historyManager.ts line 955): `a` may precede `b` when
`b.ts - a.ts ≤ 0`. -/
def tsDesc (a b : HistoryLine) : Prop := b.ts ≤ a.ts

instance : DecidableRel tsDesc := fun a b => inferInstanceAs (Decidable (b.ts ≤ a.ts))

/-- The transcript files `rebuildIndex` scans: everything under the sessions
tree and the archived tree, in scan order. -/
def scannedFiles (sd : Path) (files : List (Str × Transcript)) : List Transcript :=
  (files.map (·.2)).filter fun t => isUnder sd t.path || isUnder (archivedDirOf sd) t.path

/-- The records `rebuildIndex` (historyManager.ts lines 900-974) writes: one
per scanned file that parses to a summary, stably sorted by timestamp
descending (`Array.prototype.sort` is stable). -/
def rebuildLines (dp : Str → Option Int) (rm : Str → Option Str) (sd : Path)
    (files : List (Str × Transcript)) : List HistoryLine :=
  List.insertionSort tsDesc ((scannedFiles sd files).filterMap (parseSessionFile dp rm))

/-- The byte content `rebuildIndex` writes to `history.jsonl`. -/
def rebuildOutput (dp : Str → Option Int) (rm : Str → Option Str) (sd : Path)
    (w : World) : Str :=
  renderLog (rebuildLines dp rm sd w.files)

/-- Model of `rebuildIndex` as a state transformer: the log file is overwritten with
the rebuilt records; transcript files and the state store are untouched.
(The `.bak` backup copy of the previous log is not modelled.) -/
def rebuildIndexW (dp : Str → Option Int) (rm : Str → Option Str) (sd : Path)
    (w : World) : World :=
  let ls := rebuildLines dp rm sd w.files
  { w with log := ls.map toRaw, logExists := true, logSize := ((renderLog ls).length : Int) }

/-- The scan-and-append phase of `checkForNewSessions` (historyManager.ts
lines 1030-1101): scan the sessions and archived trees (ignoring trash
paths), keep files whose filename yields a session id (`extract` is the
engine service for the `rollout-…` capture regex at line 1052) that is not
yet indexed, parse them, and append their records to the log. -/
def scanForNew (extract : Str → Option Str) (dp : Str → Option Int)
    (rm : Str → Option Str) (sd : Path) (indexed : List Str) (w : World) : Nat × World :=
  let scanned := w.files.filter fun e =>
    (isUnder sd e.2.path || isUnder (archivedDirOf sd) e.2.path)
    && !(pathIncludes e.2.path (toStr "trash")) && !(pathIncludes e.2.path (toStr "sessions_Recycle"))
  let newFiles := scanned.filter fun e =>
    match extract (basenameP e.2.path) with
    | some sid => !(indexed.contains sid)
    | none => false
  if newFiles = [] then (0, w)
  else
    let newLines := newFiles.filterMap fun e => parseSessionFile dp rm e.2
    if newLines = [] then (0, w)
    else
      (newLines.length,
       { w with
         log := w.log ++ newLines.map toRaw,
         logExists := true,
         logSize := w.logSize + ((renderLog newLines).length : Int) })

/-- Model of `checkForNewSessions` (historyManager.ts lines 1008-1101).  When the log
file exists, the ids already indexed are read back from it; if that read
yields zero records while the file is larger than 100 bytes, the update is
aborted with result `0` to prevent re-indexing (and thus duplicating) every
session.  Otherwise new session files are scanned and appended. -/
def checkForNewSessions (extract : Str → Option Str) (dp : Str → Option Int)
    (rm : Str → Option Str) (sd : Path) (w : World) : Nat × World :=
  if w.logExists then
    let lines := readHistoryLines false w.log
    if lines = [] ∧ w.logSize > 100 then (0, w)
    else scanForNew extract dp rm sd (lines.map (·.session_id)) w
  else scanForNew extract dp rm sd [] w

/-! ## Archive and unarchive -/

/-- First match of `(\d{4})-(\d{2})-(\d{2})T` at the head of `s`. -/
def dateTriple (s : Str) : Option (Str × Str × Str) :=
  match s with
  | y1 :: y2 :: y3 :: y4 :: h1 :: m1 :: m2 :: h2 :: d1 :: d2 :: tc :: _ =>
    if y1.isDigit && y2.isDigit && y3.isDigit && y4.isDigit && h1 = '-' &&
       m1.isDigit && m2.isDigit && h2 = '-' && d1.isDigit && d2.isDigit && tc = 'T'
    then some ([y1, y2, y3, y4], [m1, m2], [d1, d2]) else none
  | _ => none

/-- Model of `fileName.match(/(\d{4})-(\d{2})-(\d{2})T/)`: the first (leftmost)
occurrence, as year/month/day capture groups. -/
def dateMatchS (s : Str) : Option (Str × Str × Str) :=
  match s with
  | [] => none
  | _ :: t =>
    match dateTriple s with
    | some r => some r
    | none => dateMatchS t

/-- Model of `archiveSession` (historyManager.ts lines 1285-1307): error when the file
is not found or already lives in the archived tree (both thrown before any
file is moved); otherwise move the file flat into the archived directory and
rebuild the index. -/
def archiveSession (dp : Str → Option Int) (rm : Str → Option Str) (sd : Path)
    (sid : Str) (w : World) : Except Str World :=
  match findSessionFile sd w.files sid with
  | none => Except.error (toStr "会话文件未找到")
  | some p =>
    if pathIncludes p (toStr "archived_sessions") then Except.error (toStr "会话已经归档")
    else
      let dest := archivedDirOf sd ++ [basenameP p]
      Except.ok (rebuildIndexW dp rm sd { w with files := moveFile w.files sid dest })

/-- Model of `unarchiveSession` (historyManager.ts lines 1309-1343): error when the
file is not found or is not in the archived tree (both thrown before any file
is moved); otherwise move it back to a date-partitioned sessions path (or the
sessions root when the filename has no date) and rebuild the index. -/
def unarchiveSession (dp : Str → Option Int) (rm : Str → Option Str) (sd : Path)
    (sid : Str) (w : World) : Except Str World :=
  match findSessionFile sd w.files sid with
  | none => Except.error (toStr "会话文件未找到")
  | some p =>
    if !(pathIncludes p (toStr "archived_sessions")) then Except.error (toStr "会话未归档")
    else
      let fileName := basenameP p
      let dest :=
        match dateMatchS fileName with
        | some (y, m, d) => sd ++ [y, m, d, fileName]
        | none => sd ++ [fileName]
      Except.ok (rebuildIndexW dp rm sd { w with files := moveFile w.files sid dest })

/-! ## `listSummaries` (historyManager.ts lines 715-797) -/

/-- The `SessionSummary` interface (historyManager.ts lines 687-697). -/
structure SessionSummary where
  sessionId : Str
  firstTs : Int
  lastTs : Int
  firstText : Str
  lastText : Str
  count : Int
  pinned : Bool
  remark : Option Str
  isArchived : Option Bool
deriving DecidableEq, Repr

/-- The line-level search filter (historyManager.ts lines 726-733): with a
non-empty term list, a line survives exactly when every term occurs in the
lower-cased `text + ' ' + (line.first_text || '')`, where `text` is
`line.text || line.last_text || ''`. -/
def searchKeeps (terms : List Str) (l : HistoryLine) : Bool :=
  let text := jsOr l.text (jsOr l.last_text [])
  terms.isEmpty ||
    (let content := lowerS (text ++ ' ' :: jsOr l.first_text [])
     terms.all fun t => includesS content t)

/-- The summary created when a session id is first seen (historyManager.ts
lines 748-759). -/
def newSummary (pinned : List Str) (remarks : List (Str × Str)) (l : HistoryLine) :
    SessionSummary :=
  let text := jsOr l.text (jsOr l.last_text [])
  let truncatedText := truncateJs 200 text
  { sessionId := l.session_id
    firstTs := l.ts
    lastTs := l.ts
    firstText := cleanFirstText (jsOr l.first_text truncatedText)
    lastText := jsOr l.last_text truncatedText
    count := jsOrInt l.turn_count 1
    pinned := pinned.contains l.session_id
    remark := remarkOf remarks l.session_id
    isArchived := l.is_archived }

/-- JS falsiness of the `remark` field (`undefined` or `''`). -/
def remarkFalsy (r : Option Str) : Bool :=
  match r with
  | none => true
  | some v => v.isEmpty

/-- The in-place merge of a further line into an existing summary
(historyManager.ts lines 760-779), with the source's sequential field
updates: `lastTs` is raised to the max before the `line.ts >= existing.lastTs`
test that guards the `lastText` update. -/
def mergeSummary (remarks : List (Str × Str)) (l : HistoryLine) (s : SessionSummary) :
    SessionSummary :=
  let text := jsOr l.text (jsOr l.last_text [])
  let truncatedText := truncateJs 200 text
  let lastTs := max s.lastTs l.ts
  let firstTs := min s.firstTs l.ts
  let lastText := if l.ts ≥ lastTs then jsOr l.last_text truncatedText else s.lastText
  let firstText :=
    if truthyS l.first_text ∧ (s.firstText = [] ∨ s.firstText = emptyPlaceholder) then
      cleanFirstText (jsOr l.first_text [])
    else s.firstText
  let remark :=
    if remarkFalsy s.remark ∧ truthyS (lookupKey remarks l.session_id) then
      lookupKey remarks l.session_id
    else s.remark
  let isArchived := if l.is_archived = some true then some true else s.isArchived
  { s with
    lastTs := lastTs, firstTs := firstTs, lastText := lastText, firstText := firstText,
    count := s.count + 1, remark := remark, isArchived := isArchived }

/-- One iteration of the grouping loop: skip lines rejected by the search
filter; otherwise create or update the `Map` entry for the line's session id
(entries in insertion order). -/
def buildStep (pinned : List Str) (remarks : List (Str × Str)) (terms : List Str)
    (acc : List SessionSummary) (l : HistoryLine) : List SessionSummary :=
  if ¬ searchKeeps terms l then acc
  else
    if acc.any (fun s => s.sessionId = l.session_id) then
      acc.map fun s => if s.sessionId = l.session_id then mergeSummary remarks l s else s
    else acc ++ [newSummary pinned remarks l]

/-- The grouped summaries in first-occurrence order (the values of the
`summaries` map). -/
def buildSummaries (pinned : List Str) (remarks : List (Str × Str)) (terms : List Str)
    (lines : List HistoryLine) : List SessionSummary :=
  lines.foldl (buildStep pinned remarks terms) []

/-- The sort comparator `(a, b) => a.pinned !== b.pinned ? (a.pinned ? -1 : 1)
: b.lastTs - a.lastTs` (historyManager.ts lines 787-790) as an integer. -/
def summaryCmp (a b : SessionSummary) : Int :=
  if a.pinned ≠ b.pinned then (if a.pinned then -1 else 1) else b.lastTs - a.lastTs

/-- Relation under which `a` may be placed before `b`: the comparator is non-positive.  A stable
sort under this total preorder is exactly what the (stable)
`Array.prototype.sort` produces. -/
def summaryLe (a b : SessionSummary) : Prop := summaryCmp a b ≤ 0

instance : DecidableRel summaryLe := fun a b => inferInstanceAs (Decidable (summaryCmp a b ≤ 0))

/-- Numeric rank of the pinned flag in the sort comparator. -/
def pinRank (s : SessionSummary) : Int := if s.pinned then 0 else 1

theorem summaryLe_iff (a b : SessionSummary) :
    summaryLe a b ↔ (pinRank a < pinRank b ∨ (pinRank a = pinRank b ∧ b.lastTs ≤ a.lastTs)) := by
  unfold summaryLe summaryCmp pinRank
  cases ha : a.pinned <;> cases hb : b.pinned <;> simp <;> try omega

instance : IsTotal SessionSummary summaryLe where
  total a b := by
    rw [summaryLe_iff, summaryLe_iff]
    omega

instance : IsTrans SessionSummary summaryLe where
  trans a b c hab hbc := by
    rw [summaryLe_iff] at hab hbc ⊢
    omega

/-- The body of `listSummaries` after `readHistoryLines`: group, filter to
pinned if requested, sort with the pinned-first/timestamp-descending
comparator (stably), and apply a positive `limit`. -/
def listSummariesLines (search : Option Str) (limit : Option Int) (onlyPinned : Bool)
    (pinned : List Str) (remarks : List (Str × Str)) (lines : List HistoryLine) :
    List SessionSummary :=
  let terms := match search with
    | some s => splitTerms s
    | none => []
  let result := buildSummaries pinned remarks terms lines
  let result := if onlyPinned then result.filter (·.pinned) else result
  let result := List.insertionSort summaryLe result
  match limit with
  | some n => if n > 0 then result.take n.toNat else result
  | none => result

/-- Model of `listSummaries` (historyManager.ts lines 715-797) over the raw log. -/
def listSummaries (search : Option Str) (limit : Option Int) (onlyPinned : Bool)
    (hideAgents : Bool) (pinned : List Str) (remarks : List (Str × Str))
    (log : List RawLine) : List SessionSummary :=
  listSummariesLines search limit onlyPinned pinned remarks (readHistoryLines hideAgents log)

/-! ## General list lemmas -/

theorem find?_eq_head?_filter {α : Type} (p : α → Bool) (l : List α) :
    l.find? p = (l.filter p).head? := by
  induction l with
  | nil => rfl
  | cons a t ih =>
    rw [List.find?_cons, List.filter_cons]
    cases h : p a
    · simp only [h, Bool.false_eq_true, if_false]
      exact ih
    · simp [h]

theorem find?_map_setKey (t : List (Str × Str)) (k v : Str)
    (h : t.any (fun p => p.1 = k) = true) :
    (t.map fun p => if p.1 = k then (k, v) else p).find? (fun p => decide (p.1 = k)) =
      some (k, v) := by
  induction t with
  | nil => simp at h
  | cons a t ih =>
    by_cases ha : a.1 = k
    · simp [List.find?_cons, ha]
    · rw [List.map_cons, if_neg ha, List.find?_cons]
      rw [show (decide (a.1 = k)) = false by simp [ha]]
      apply ih
      simp only [List.any_cons, Bool.or_eq_true] at h
      rcases h with h | h
      · exact absurd (by simpa using h) ha
      · exact h

theorem find?_append_setKey (t : List (Str × Str)) (k v : Str)
    (h : t.any (fun p => p.1 = k) = false) :
    (t ++ [(k, v)]).find? (fun p => decide (p.1 = k)) = some (k, v) := by
  induction t with
  | nil => simp
  | cons a t ih =>
    simp only [List.any_cons, Bool.or_eq_false_iff] at h
    rw [List.cons_append, List.find?_cons]
    rw [show (decide (a.1 = k)) = false from h.1]
    exact ih h.2

theorem lookupKey_setKey (m : List (Str × Str)) (k v : Str) :
    lookupKey (setKey m k v) k = some v := by
  unfold lookupKey setKey
  by_cases h : m.any (fun p => p.1 = k)
  · rw [if_pos h, find?_map_setKey m k v h]
    rfl
  · rw [if_neg h, find?_append_setKey m k v (Bool.eq_false_iff.mpr h)]
    rfl

theorem lookupKey_delKey (m : List (Str × Str)) (k : Str) :
    lookupKey (delKey m k) k = none := by
  unfold lookupKey delKey
  rw [List.find?_eq_none.mpr]
  · rfl
  · intro x hx
    have := List.of_mem_filter hx
    simpa using this

/-! ## Claim theorems -/

/-- C6, counterexample: a line consisting of a single space fails `JSON.parse`
yet the delete-time rewrite does not write it through — the blank-line guard
drops it before the parse attempt, so a malformed whitespace-only line is
lost rather than preserved. -/
theorem claim6_counterexample :
    (RawLine.mk [' '] none).json = none ∧
    (rewriteHistoryExcluding [] [RawLine.mk [' '] none]).2 = [] := by
  constructor
  · rfl
  · rfl

/-- C6 (amended): every malformed log line whose content is not blank (not
whitespace-only) is written through unchanged by the delete-time rewrite, and
`removedHistory` counts only lines that parse — blank malformed lines are the
one exception, being silently dropped. -/
theorem claim6_malformed_passthrough (ids : List Str) (log : List RawLine) (l : RawLine)
    (hmem : l ∈ log) (hmal : l.json = none) (hnb : trimS l.text ≠ []) :
    l ∈ (rewriteHistoryExcluding ids log).2 ∧
    (rewriteHistoryExcluding ids log).1 =
      (log.filter fun l' => l'.json ≠ none).countP (dropCounted ids) := by
  rw [rewriteHistoryExcluding_eq]
  constructor
  · apply List.mem_filter.mpr
    refine ⟨hmem, ?_⟩
    unfold keepLine
    simp [hnb, hmal]
  · rw [List.countP_filter]
    apply List.countP_congr
    intro l' _
    unfold dropCounted
    constructor
    · intro h
      cases hj : l'.json with
      | none => simp [hj] at h
      | some o => simp_all
    · intro h
      simp only [Bool.and_eq_true] at h
      exact h.1

/-- C6 witness: a malformed line `junk` survives a delete of session `B`
unchanged, and the removed count sees only the parseable `B` line. -/
theorem claim6_witness :
    let junk : RawLine := ⟨toStr "junk", none⟩
    let lb : RawLine := ⟨toStr "lineB", some { session_id := some (toStr "B"), ts := some 2 }⟩
    junk ∈ (rewriteHistoryExcluding [toStr "B"] [junk, lb]).2 ∧
    (rewriteHistoryExcluding [toStr "B"] [junk, lb]).1 =
      ([junk, lb].filter fun l' => l'.json ≠ none).countP (dropCounted [toStr "B"]) :=
  claim6_malformed_passthrough [toStr "B"]
    [⟨toStr "junk", none⟩, ⟨toStr "lineB", some { session_id := some (toStr "B"), ts := some 2 }⟩]
    ⟨toStr "junk", none⟩ (by simp) (by rfl) (by decide)

/-- C9, counterexample: clearing the remark of an id that has no stored
remark is not write-free — `undefined === ''` is false in JS, so the guard
does not fire and `persist()` runs: on the empty state, `setRemark('a', '')`
performs one disk write where the claim mandates none. -/
theorem claim9_counterexample :
    lookupKey (StateFile.mk [] [] 0).remarks (toStr "a") = none ∧
    trimS [] = [] ∧
    (stateSetRemark (toStr "a") [] (StateFile.mk [] [] 0)).writes = 1 := by
  refine ⟨rfl, rfl, rfl⟩

/-- C9 (amended): `setRemark` stores the trimmed input; it is a no-op with no
disk write exactly when a remark is already stored and equals the trimmed
input; in every other case — including clearing an id that has no stored
remark — it performs one disk write, after which the stored remark is the
trimmed text, or absent when the trimmed text is empty. -/
theorem claim9_setRemark (s : StateFile) (sid text : Str) :
    (lookupKey s.remarks sid = some (trimS text) → stateSetRemark sid text s = s) ∧
    (lookupKey s.remarks sid ≠ some (trimS text) →
      (stateSetRemark sid text s).writes = s.writes + 1) ∧
    (lookupKey s.remarks sid ≠ some (trimS text) → trimS text ≠ [] →
      lookupKey (stateSetRemark sid text s).remarks sid = some (trimS text)) ∧
    (lookupKey s.remarks sid ≠ some (trimS text) → trimS text = [] →
      lookupKey (stateSetRemark sid text s).remarks sid = none) := by
  refine ⟨fun h => ?_, fun h => ?_, fun h hne => ?_, fun h he => ?_⟩
  · unfold stateSetRemark
    simp [h]
  · unfold stateSetRemark
    simp [h]
  · unfold stateSetRemark
    simp only [if_neg h, if_pos hne]
    exact lookupKey_setKey s.remarks sid (trimS text)
  · unfold stateSetRemark
    simp only [if_neg h, if_neg (show ¬ trimS text ≠ [] from fun hh => hh he)]
    exact lookupKey_delKey s.remarks sid

/-- C9 witness: with a stored remark `hi` for `a`, `setRemark('a', ' hi ')`
is a write-free no-op; `setRemark('a', ' x ')` on the empty state writes once
and stores the trimmed `x`; `setRemark('b', '')` with a stored remark for `b`
writes once and deletes the key. -/
theorem claim9_witness :
    (stateSetRemark (toStr "a") (toStr " hi ") ⟨[], [(toStr "a", toStr "hi")], 3⟩ =
      ⟨[], [(toStr "a", toStr "hi")], 3⟩) ∧
    ((stateSetRemark (toStr "a") (toStr " x ") ⟨[], [], 0⟩).writes = 1 ∧
      lookupKey (stateSetRemark (toStr "a") (toStr " x ") ⟨[], [], 0⟩).remarks (toStr "a") =
        some (toStr "x")) ∧
    ((stateSetRemark (toStr "b") [] ⟨[], [(toStr "b", toStr "z")], 5⟩).writes = 6 ∧
      lookupKey (stateSetRemark (toStr "b") [] ⟨[], [(toStr "b", toStr "z")], 5⟩).remarks (toStr "b") =
        none) :=
  ⟨(claim9_setRemark ⟨[], [(toStr "a", toStr "hi")], 3⟩ (toStr "a") (toStr " hi ")).1 (by decide),
   ⟨(claim9_setRemark ⟨[], [], 0⟩ (toStr "a") (toStr " x ")).2.1 (by decide),
    (claim9_setRemark ⟨[], [], 0⟩ (toStr "a") (toStr " x ")).2.2.1 (by decide) (by decide)⟩,
   ⟨(claim9_setRemark ⟨[], [(toStr "b", toStr "z")], 5⟩ (toStr "b") []).2.1 (by decide),
    (claim9_setRemark ⟨[], [(toStr "b", toStr "z")], 5⟩ (toStr "b") []).2.2.2 (by decide) (by decide)⟩⟩

theorem findSessionFile_of_located (sd : Path) (files : List (Str × Transcript))
    (sid : Str) (t : Transcript) (h1 : lookupT files sid = some t)
    (h2 : isUnder sd t.path = true ∨ isUnder (archivedDirOf sd) t.path = true) :
    findSessionFile sd files sid = some t.path := by
  unfold findSessionFile
  rw [h1]
  dsimp only
  rcases h2 with h | h
  · rw [if_pos h]
  · by_cases hs : isUnder sd t.path = true
    · rw [if_pos hs]
    · rw [if_neg hs, if_pos h]

/-- C7: a locatable session whose file already lives in the archived tree
makes `archiveSession` fail with the already-archived error, and a locatable
session whose file is not in the archived tree makes `unarchiveSession` fail
with the not-archived error; in both cases the error is thrown before any
`fs.move` or reindex, so no file moves and no state changes (the operations
produce no successor world). -/
theorem claim7_invalid_transition (dp : Str → Option Int) (rm : Str → Option Str)
    (sd : Path) (w w' : World) (sid sid' : Str) (t t' : Transcript)
    (h1 : lookupT w.files sid = some t)
    (h2 : isUnder sd t.path = true ∨ isUnder (archivedDirOf sd) t.path = true)
    (h3 : pathIncludes t.path (toStr "archived_sessions") = true)
    (h1' : lookupT w'.files sid' = some t')
    (h2' : isUnder sd t'.path = true ∨ isUnder (archivedDirOf sd) t'.path = true)
    (h3' : pathIncludes t'.path (toStr "archived_sessions") = false) :
    archiveSession dp rm sd sid w = Except.error (toStr "会话已经归档") ∧
    unarchiveSession dp rm sd sid' w' = Except.error (toStr "会话未归档") := by
  constructor
  · unfold archiveSession
    rw [findSessionFile_of_located sd w.files sid t h1 h2]
    dsimp only
    rw [if_pos h3]
  · unfold unarchiveSession
    rw [findSessionFile_of_located sd w'.files sid' t' h1' h2']
    dsimp only
    simp [h3']

/-- C7 witness: with the sessions directory `home/sessions`, archiving the
session whose file is `home/archived_sessions/a.jsonl` errors, and
unarchiving the session whose file is `home/sessions/b.jsonl` errors. -/
theorem claim7_witness :
    (archiveSession (fun _ => none) (fun _ => none) [toStr "home", toStr "sessions"]
        (toStr "a")
        ⟨[(toStr "a", ⟨[toStr "home", toStr "archived_sessions", toStr "a.jsonl"], []⟩)],
         [], true, 0, ⟨[], [], 0⟩⟩ =
      Except.error (toStr "会话已经归档")) ∧
    (unarchiveSession (fun _ => none) (fun _ => none) [toStr "home", toStr "sessions"]
        (toStr "b")
        ⟨[(toStr "b", ⟨[toStr "home", toStr "sessions", toStr "b.jsonl"], []⟩)],
         [], true, 0, ⟨[], [], 0⟩⟩ =
      Except.error (toStr "会话未归档")) :=
  claim7_invalid_transition (fun _ => none) (fun _ => none) [toStr "home", toStr "sessions"]
    ⟨[(toStr "a", ⟨[toStr "home", toStr "archived_sessions", toStr "a.jsonl"], []⟩)],
     [], true, 0, ⟨[], [], 0⟩⟩
    ⟨[(toStr "b", ⟨[toStr "home", toStr "sessions", toStr "b.jsonl"], []⟩)],
     [], true, 0, ⟨[], [], 0⟩⟩
    (toStr "a") (toStr "b")
    ⟨[toStr "home", toStr "archived_sessions", toStr "a.jsonl"], []⟩
    ⟨[toStr "home", toStr "sessions", toStr "b.jsonl"], []⟩
    (by decide) (Or.inr (by decide)) (by decide)
    (by decide) (Or.inl (by decide)) (by decide)

/-- C8: when the history file exists, reading it back yields zero records,
and its size exceeds the 100-byte triviality threshold, `checkForNewSessions`
aborts before scanning: it returns 0 and leaves the whole world — in
particular the log — unchanged, so the incremental append cannot duplicate
already-indexed sessions. -/
theorem claim8_zero_read_guard (extract : Str → Option Str) (dp : Str → Option Int)
    (rm : Str → Option Str) (sd : Path) (w : World)
    (h1 : w.logExists = true)
    (h2 : readHistoryLines false w.log = [])
    (h3 : w.logSize > 100) :
    checkForNewSessions extract dp rm sd w = (0, w) := by
  unfold checkForNewSessions
  rw [h1]
  simp [h2, h3]

/-- C8 witness: a log file that exists, holds one unparseable line (zero
records read back) and is 101 bytes large makes `checkForNewSessions` return
0 and change nothing. -/
theorem claim8_witness :
    checkForNewSessions (fun _ => none) (fun _ => none) (fun _ => none)
        [toStr "home", toStr "sessions"]
        ⟨[(toStr "a", ⟨[toStr "home", toStr "sessions", toStr "a.jsonl"], []⟩)],
         [⟨toStr "garbage", none⟩], true, 101, ⟨[], [], 0⟩⟩ =
      (0, ⟨[(toStr "a", ⟨[toStr "home", toStr "sessions", toStr "a.jsonl"], []⟩)],
           [⟨toStr "garbage", none⟩], true, 101, ⟨[], [], 0⟩⟩) :=
  claim8_zero_read_guard (fun _ => none) (fun _ => none) (fun _ => none)
    [toStr "home", toStr "sessions"]
    ⟨[(toStr "a", ⟨[toStr "home", toStr "sessions", toStr "a.jsonl"], []⟩)],
     [⟨toStr "garbage", none⟩], true, 101, ⟨[], [], 0⟩⟩
    rfl (by decide) (by decide)

instance : IsTotal HistoryLine tsDesc where
  total a b := by unfold tsDesc; omega

instance : IsTrans HistoryLine tsDesc where
  trans a b c hab hbc := by unfold tsDesc at *; omega

/-- C2, counterexample: an empty transcript file is scanned but
`parseSessionFile` returns `null` for it, so a rebuild over one scanned
session file writes zero lines — not one line per scanned session file. -/
theorem claim2_counterexample :
    (scannedFiles [toStr "sessions"]
        [(toStr "e", ⟨[toStr "sessions", toStr "e.jsonl"], []⟩)]).length = 1 ∧
    (rebuildLines (fun _ => none) (fun _ => none) [toStr "sessions"]
        [(toStr "e", ⟨[toStr "sessions", toStr "e.jsonl"], []⟩)]).length = 0 :=
  ⟨rfl, rfl⟩

/-- C2 (amended): with no intervening filesystem change, a second
`rebuildIndex` writes byte-identical log content to the first — the written
bytes are a function of the scanned transcript files only, which the rebuild
does not modify; each run writes one line per scanned session file that
parses to a summary record (not per scanned file: unparseable files
contribute nothing), sorted by timestamp descending. -/
theorem claim2_rebuild_idempotent (dp : Str → Option Int) (rm : Str → Option Str)
    (sd : Path) (w : World) :
    rebuildOutput dp rm sd (rebuildIndexW dp rm sd w) = rebuildOutput dp rm sd w ∧
    List.Sorted tsDesc (rebuildLines dp rm sd w.files) ∧
    (rebuildLines dp rm sd w.files).length =
      ((scannedFiles sd w.files).filterMap (parseSessionFile dp rm)).length :=
  ⟨rfl, List.sorted_insertionSort tsDesc _, (List.perm_insertionSort tsDesc _).length_eq⟩

/-- C5, counterexample: pin `X`, then pin `Y` (so `Y` is the most recently
pinned), with `X`'s only log line newer (ts 200) than `Y`'s (ts 100).  Both
are pinned, yet `listSummaries` orders `X` before `Y`: among pinned entries
the comparator uses latest-timestamp-descending order, not pin insertion
order, contradicting the claimed `Y`-before-`X`. -/
theorem claim5_counterexample :
    (listSummariesLines none none false
        (statePin (toStr "Y") (statePin (toStr "X") ⟨[], [], 0⟩)).pinned []
        [⟨toStr "X", 200, none, none, some (toStr "x"), none, none⟩,
         ⟨toStr "Y", 100, none, none, some (toStr "y"), none, none⟩]).map (·.sessionId) =
      [toStr "X", toStr "Y"] ∧
    (listSummariesLines none none false
        (statePin (toStr "Y") (statePin (toStr "X") ⟨[], [], 0⟩)).pinned []
        [⟨toStr "X", 200, none, none, some (toStr "x"), none, none⟩,
         ⟨toStr "Y", 100, none, none, some (toStr "y"), none, none⟩]).map (·.sessionId) ≠
      [toStr "Y", toStr "X"] := by
  constructor
  · decide
  · decide

theorem pairwise_listOrder (l : List SessionSummary) :
    List.Pairwise
      (fun a b => (b.pinned = true → a.pinned = true) ∧
        (a.pinned = b.pinned → b.lastTs ≤ a.lastTs))
      (List.insertionSort summaryLe l) := by
  refine (List.sorted_insertionSort summaryLe l).imp ?_
  intro a b hab
  rw [summaryLe_iff] at hab
  unfold pinRank at hab
  cases ha : a.pinned <;> cases hb : b.pinned <;>
    simp [ha, hb] at hab ⊢ <;> omega

/-- C5 (amended): in every `listSummaries` result, every pinned entry is
ordered before every unpinned entry regardless of timestamp, and entries of
equal pinned status — in particular the pinned entries among themselves — are
ordered by latest timestamp descending; pin insertion order has no effect on
the ordering. -/
theorem claim5_pinned_order (search : Option Str) (limit : Option Int) (onlyPinned : Bool)
    (pinned : List Str) (remarks : List (Str × Str)) (lines : List HistoryLine) :
    List.Pairwise
      (fun a b => (b.pinned = true → a.pinned = true) ∧
        (a.pinned = b.pinned → b.lastTs ≤ a.lastTs))
      (listSummariesLines search limit onlyPinned pinned remarks lines) := by
  unfold listSummariesLines
  cases limit with
  | none => exact pairwise_listOrder _
  | some n =>
    dsimp only
    by_cases hn : n > 0
    · rw [if_pos hn]
      exact List.Pairwise.sublist (List.take_sublist _ _) (pairwise_listOrder _)
    · rw [if_neg hn]
      exact pairwise_listOrder _

theorem searchKeeps_all (terms : List Str) (l : HistoryLine) :
    searchKeeps terms l =
      terms.all (fun tm =>
        includesS (lowerS (jsOr l.text (jsOr l.last_text []) ++ ' ' ::
          jsOr l.first_text [])) tm) := by
  cases terms with
  | nil => simp [searchKeeps]
  | cons a t => simp [searchKeeps]

theorem listSummariesLines_search (search : Str) (pinned : List Str)
    (remarks : List (Str × Str)) (lines : List HistoryLine) :
    listSummariesLines (some search) none false pinned remarks lines =
      List.insertionSort summaryLe
        (buildSummaries pinned remarks (splitTerms search) lines) := rfl

theorem map_sessionId_update (q : Str) (f : SessionSummary → SessionSummary)
    (hf : ∀ s, (f s).sessionId = s.sessionId) (acc : List SessionSummary) :
    ((acc.map fun s => if s.sessionId = q then f s else s).map (·.sessionId)) =
      acc.map (·.sessionId) := by
  rw [List.map_map]
  apply List.map_congr_left
  intro s _
  by_cases hs : s.sessionId = q <;> simp [Function.comp, hs, hf s]

theorem mem_buildSummaries (pinned : List Str) (remarks : List (Str × Str))
    (terms : List Str) (sid : Str) :
    ∀ (lines : List HistoryLine) (acc : List SessionSummary),
      (sid ∈ (lines.foldl (buildStep pinned remarks terms) acc).map (·.sessionId) ↔
        (sid ∈ acc.map (·.sessionId) ∨
          ∃ l, l ∈ lines ∧ l.session_id = sid ∧ searchKeeps terms l = true)) := by
  intro lines
  induction lines with
  | nil =>
    intro acc
    simp
  | cons l t ih =>
    intro acc
    rw [List.foldl_cons, ih]
    by_cases hk : searchKeeps terms l = true
    · by_cases hany : acc.any (fun s => s.sessionId = l.session_id) = true
      · have hstep : buildStep pinned remarks terms acc l =
            acc.map fun s =>
              if s.sessionId = l.session_id then mergeSummary remarks l s else s := by
          unfold buildStep
          rw [if_neg (by simp [hk]), if_pos (by simpa using hany)]
        rw [hstep, map_sessionId_update l.session_id (mergeSummary remarks l)
          (fun _ => rfl) acc]
        have hin : l.session_id ∈ acc.map (·.sessionId) := by
          rcases List.any_eq_true.mp hany with ⟨s, hs, hps⟩
          have hse : s.sessionId = l.session_id := by simpa using hps
          exact hse ▸ List.mem_map_of_mem (·.sessionId) hs
        constructor
        · rintro (h | ⟨x, hx, hxs, hxk⟩)
          · exact Or.inl h
          · exact Or.inr ⟨x, List.mem_cons_of_mem l hx, hxs, hxk⟩
        · rintro (h | ⟨x, hx, hxs, hxk⟩)
          · exact Or.inl h
          · rcases List.mem_cons.mp hx with rfl | hx
            · exact Or.inl (hxs ▸ hin)
            · exact Or.inr ⟨x, hx, hxs, hxk⟩
      · have hstep : buildStep pinned remarks terms acc l =
            acc ++ [newSummary pinned remarks l] := by
          unfold buildStep
          rw [if_neg (by simp [hk]), if_neg (by simpa using hany)]
        rw [hstep, List.map_append]
        have hns : (newSummary pinned remarks l).sessionId = l.session_id := rfl
        constructor
        · rintro (h | ⟨x, hx, hxs, hxk⟩)
          · rcases List.mem_append.mp h with h | h
            · exact Or.inl h
            · have : sid = l.session_id := by
                rw [List.map_cons, List.map_nil, hns] at h
                simpa using h
              exact Or.inr ⟨l, List.mem_cons_self l t, this.symm, hk⟩
          · exact Or.inr ⟨x, List.mem_cons_of_mem l hx, hxs, hxk⟩
        · rintro (h | ⟨x, hx, hxs, hxk⟩)
          · exact Or.inl (List.mem_append.mpr (Or.inl h))
          · rcases List.mem_cons.mp hx with rfl | hx
            · refine Or.inl (List.mem_append.mpr (Or.inr ?_))
              rw [List.map_cons, List.map_nil, hns]
              simpa using hxs.symm
            · exact Or.inr ⟨x, hx, hxs, hxk⟩
    · have hstep : buildStep pinned remarks terms acc l = acc := by
        unfold buildStep
        rw [if_pos hk]
      rw [hstep]
      constructor
      · rintro (h | ⟨x, hx, hxs, hxk⟩)
        · exact Or.inl h
        · exact Or.inr ⟨x, List.mem_cons_of_mem l hx, hxs, hxk⟩
      · rintro (h | ⟨x, hx, hxs, hxk⟩)
        · exact Or.inl h
        · rcases List.mem_cons.mp hx with rfl | hx
          · exact absurd hxk hk
          · exact Or.inr ⟨x, hx, hxs, hxk⟩

/-- C4, counterexample: the search filter runs per log line, before merging.
For a session with two lines whose last-texts are `fix` (ts 1) and `bug`
(ts 2), the merged summary's combined last-text and first-text is `bug fix`,
which contains every term of the search `fix bug` — yet the search drops the
session, because each individual line lacks one of the terms.  The claimed
per-session iff ("keeps the session if and only if every term appears in the
session's combined last-text and first-text") is therefore false. -/
theorem claim4_counterexample :
    ((listSummariesLines none none false [] []
        [⟨toStr "s", 1, none, some [], some (toStr "fix"), none, none⟩,
         ⟨toStr "s", 2, none, some [], some (toStr "bug"), none, none⟩]).map
        (fun s => (splitTerms (toStr "fix bug")).all
          (fun tm => includesS (lowerS (s.lastText ++ ' ' :: s.firstText)) tm)) =
      [true]) ∧
    ((listSummariesLines (some (toStr "fix bug")) none false [] []
        [⟨toStr "s", 1, none, some [], some (toStr "fix"), none, none⟩,
         ⟨toStr "s", 2, none, some [], some (toStr "bug"), none, none⟩]).map
        (·.sessionId) = []) := by
  constructor
  · decide
  · decide

/-- C4 (amended): the search is conjunctive but applied per log line, before
merging: a session appears in the `listSummaries` result for a search exactly
when at least one of its log lines individually contains every
whitespace-separated lower-cased search term as a substring of that line's
`(text || last_text || '') + ' ' + (first_text || '')`.  For a session with
one current log line this reduces to the claimed per-session rule: the
single-line session with last-text `fix login bug` is kept by the search
`login fix` and dropped by `login signup`. -/
theorem claim4_per_line_search :
    (∀ (pinned : List Str) (remarks : List (Str × Str)) (lines : List HistoryLine)
        (search : Str) (sid : Str),
      sid ∈ (listSummariesLines (some search) none false pinned remarks lines).map
          (·.sessionId) ↔
        ∃ l, l ∈ lines ∧ l.session_id = sid ∧
          ((splitTerms search).all fun tm =>
            includesS (lowerS (jsOr l.text (jsOr l.last_text []) ++ ' ' ::
              jsOr l.first_text [])) tm) = true) ∧
    ((listSummariesLines (some (toStr "login fix")) none false [] []
        [⟨toStr "s1", 5, none, some [], some (toStr "fix login bug"), none, none⟩]).map
          (·.sessionId) = [toStr "s1"]) ∧
    ((listSummariesLines (some (toStr "login signup")) none false [] []
        [⟨toStr "s1", 5, none, some [], some (toStr "fix login bug"), none, none⟩]).map
          (·.sessionId) = []) := by
  refine ⟨?_, by decide, by decide⟩
  intro pinned remarks lines search sid
  rw [listSummariesLines_search]
  rw [((List.perm_insertionSort summaryLe
    (buildSummaries pinned remarks (splitTerms search) lines)).map (·.sessionId)).mem_iff]
  unfold buildSummaries
  rw [mem_buildSummaries pinned remarks (splitTerms search) sid lines []]
  simp only [List.map_nil, List.not_mem_nil, false_or]
  apply exists_congr
  intro l
  rw [searchKeeps_all (splitTerms search) l]

/-! ## Lemmas for the delete-time state frame (C10) -/

theorem stateUnpin_pinned (sid : Str) (st : StateFile) :
    (stateUnpin sid st).pinned = st.pinned.filter (fun i => ¬ i = sid) := by
  unfold stateUnpin
  by_cases h : (st.pinned.filter fun i => ¬ i = sid).length ≠ st.pinned.length
  · rw [if_pos h]
  · rw [if_neg h]
    push_neg at h
    exact ((List.filter_sublist st.pinned).eq_of_length h).symm

theorem stateUnpin_remarks (sid : Str) (st : StateFile) :
    (stateUnpin sid st).remarks = st.remarks := by
  unfold stateUnpin
  dsimp only
  split <;> rfl

theorem stateSetRemark_pinned (sid text : Str) (st : StateFile) :
    (stateSetRemark sid text st).pinned = st.pinned := by
  unfold stateSetRemark
  dsimp only
  split <;> rfl

theorem lookupKey_ne_empty (m : List (Str × Str)) (k : Str)
    (hwf : ∀ p ∈ m, p.2 ≠ []) : lookupKey m k ≠ some [] := by
  unfold lookupKey
  intro h
  cases hf : m.find? (fun p => p.1 = k) with
  | none => rw [hf] at h; simp at h
  | some p =>
    rw [hf] at h
    have hm := List.mem_of_find?_eq_some hf
    have := hwf p hm
    exact this (by simpa using h)

theorem clearRemark_remarks (sid : Str) (st : StateFile)
    (hwf : ∀ p ∈ st.remarks, p.2 ≠ []) :
    (stateSetRemark sid [] st).remarks = delKey st.remarks sid := by
  unfold stateSetRemark
  have hne : lookupKey st.remarks sid ≠ some (trimS []) :=
    fun h => lookupKey_ne_empty st.remarks sid hwf (by simpa using h)
  rw [if_neg hne]
  dsimp only
  rw [if_neg (show ¬ trimS ([] : Str) ≠ [] from fun hh => hh rfl)]

/-- The per-id pin/remark clearing step of the CLI `deleteSessions`. -/
def cliClearStep (st : StateFile) (sid : Str) : StateFile :=
  stateSetRemark sid [] (stateUnpin sid st)

theorem cliClearStep_remarks (st : StateFile) (sid : Str)
    (hwf : ∀ p ∈ st.remarks, p.2 ≠ []) :
    (cliClearStep st sid).remarks = delKey st.remarks sid := by
  unfold cliClearStep
  rw [clearRemark_remarks sid (stateUnpin sid st) (by rw [stateUnpin_remarks]; exact hwf)]
  rw [stateUnpin_remarks]

theorem cliClear_pinned (L : List Str) :
    ∀ st : StateFile,
      (L.foldl cliClearStep st).pinned = st.pinned.filter (fun p => !(L.contains p)) := by
  induction L with
  | nil => intro st; simp
  | cons a t ih =>
    intro st
    rw [List.foldl_cons, ih]
    have hstep : (cliClearStep st a).pinned = st.pinned.filter (fun i => ¬ i = a) := by
      unfold cliClearStep
      rw [stateSetRemark_pinned, stateUnpin_pinned]
    rw [hstep, List.filter_filter]
    apply List.filter_congr
    intro x _
    by_cases hx : x = a <;> simp [hx, List.contains]

theorem cliClear_remarks (L : List Str) :
    ∀ st : StateFile, (∀ p ∈ st.remarks, p.2 ≠ []) →
      (L.foldl cliClearStep st).remarks = st.remarks.filter (fun p => !(L.contains p.1)) := by
  induction L with
  | nil => intro st _; simp
  | cons a t ih =>
    intro st hwf
    rw [List.foldl_cons]
    have hwf' : ∀ p ∈ (cliClearStep st a).remarks, p.2 ≠ [] := by
      rw [cliClearStep_remarks st a hwf]
      intro p hp
      exact hwf p (List.mem_of_mem_filter hp)
    rw [ih _ hwf', cliClearStep_remarks st a hwf]
    unfold delKey
    rw [List.filter_filter]
    apply List.filter_congr
    intro x _
    by_cases hx : x.1 = a <;> simp [hx, List.contains]

theorem moveLoop_frame (sd td : Path) (L : List Str) :
    ∀ acc : MoveAcc,
      (L.foldl (deleteMoveStep sd td) acc).w.log = acc.w.log ∧
      (L.foldl (deleteMoveStep sd td) acc).w.logExists = acc.w.logExists ∧
      (L.foldl (deleteMoveStep sd td) acc).w.st = acc.w.st := by
  induction L with
  | nil => intro acc; exact ⟨rfl, rfl, rfl⟩
  | cons a t ih =>
    intro acc
    rw [List.foldl_cons]
    have hstep : (deleteMoveStep sd td acc a).w.log = acc.w.log ∧
        (deleteMoveStep sd td acc a).w.logExists = acc.w.logExists ∧
        (deleteMoveStep sd td acc a).w.st = acc.w.st := by
      unfold deleteMoveStep
      cases findSessionFile sd acc.w.files a <;> exact ⟨rfl, rfl, rfl⟩
    obtain ⟨h1, h2, h3⟩ := ih (deleteMoveStep sd td acc a)
    exact ⟨h1.trans hstep.1, h2.trans hstep.2.1, h3.trans hstep.2.2⟩

theorem moveLoopCli_frame (sd td : Path) (L : List Str) :
    ∀ acc : MoveAcc,
      (L.foldl (deleteMoveStepCli sd td) acc).w.log = acc.w.log ∧
      (L.foldl (deleteMoveStepCli sd td) acc).w.logExists = acc.w.logExists ∧
      (L.foldl (deleteMoveStepCli sd td) acc).w.st = acc.w.st := by
  induction L with
  | nil => intro acc; exact ⟨rfl, rfl, rfl⟩
  | cons a t ih =>
    intro acc
    rw [List.foldl_cons]
    have hstep : (deleteMoveStepCli sd td acc a).w.log = acc.w.log ∧
        (deleteMoveStepCli sd td acc a).w.logExists = acc.w.logExists ∧
        (deleteMoveStepCli sd td acc a).w.st = acc.w.st := by
      unfold deleteMoveStepCli
      cases findSessionFileCli sd acc.w.files a <;> exact ⟨rfl, rfl, rfl⟩
    obtain ⟨h1, h2, h3⟩ := ih (deleteMoveStepCli sd td acc a)
    exact ⟨h1.trans hstep.1, h2.trans hstep.2.1, h3.trans hstep.2.2⟩

theorem mem_jsSetAux (x : Str) (l : List Str) :
    ∀ seen : List Str, x ∈ jsSetAux seen l ↔ (x ∈ l ∧ x ∉ seen) := by
  induction l with
  | nil => intro seen; simp [jsSetAux]
  | cons a t ih =>
    intro seen
    unfold jsSetAux
    by_cases h : seen.contains a
    · rw [if_pos h]
      rw [ih seen]
      constructor
      · rintro ⟨hx, hs⟩
        exact ⟨List.mem_cons_of_mem a hx, hs⟩
      · rintro ⟨hx, hs⟩
        rcases List.mem_cons.mp hx with rfl | hx
        · exact absurd (List.elem_iff.mp h) hs
        · exact ⟨hx, hs⟩
    · rw [if_neg h]
      rw [List.mem_cons, ih (a :: seen)]
      constructor
      · rintro (rfl | ⟨hx, hs⟩)
        · exact ⟨List.mem_cons_self x t, fun hc => h (List.elem_iff.mpr hc)⟩
        · exact ⟨List.mem_cons_of_mem a hx,
            fun hc => hs (List.mem_cons_of_mem a hc)⟩
      · rintro ⟨hx, hs⟩
        by_cases hxa : x = a
        · exact Or.inl hxa
        · rcases List.mem_cons.mp hx with rfl | hx
          · exact Or.inl rfl
          · exact Or.inr ⟨hx, fun hc => by
              rcases List.mem_cons.mp hc with rfl | hc
              · exact hxa rfl
              · exact hs hc⟩

theorem mem_jsSetList (x : Str) (l : List Str) : x ∈ jsSetList l ↔ x ∈ l := by
  unfold jsSetList
  rw [mem_jsSetAux]
  simp

/-- C10: the extension core's `deleteSessions` leaves the persisted pin and
remark state untouched (so the metadata survives a later restore from the
recycle bin), while the CLI core's `deleteSessions` unpins every deleted id
and deletes its remark. -/
theorem claim10_delete_state_frame (sd td : Path) (ids : List Str) (w : World) (sid : Str)
    (hsid : sid ∈ ids) (hwf : ∀ p ∈ w.st.remarks, p.2 ≠ []) :
    (deleteSessionsExt sd td ids w).2.st = w.st ∧
    (deleteSessionsCli sd td ids w).2.st.pinned.contains sid = false ∧
    lookupKey (deleteSessionsCli sd td ids w).2.st.remarks sid = none := by
  have hmemset : sid ∈ jsSetList ids := (mem_jsSetList sid ids).mpr hsid
  refine ⟨?_, ?_, ?_⟩
  · unfold deleteSessionsExt
    exact (moveLoop_frame sd td (jsSetList ids) ⟨[], [], w⟩).2.2
  · unfold deleteSessionsCli
    dsimp only
    rw [show (fun st sid => stateSetRemark sid [] (stateUnpin sid st)) = cliClearStep from rfl]
    rw [(moveLoopCli_frame sd td (jsSetList ids) ⟨[], [], w⟩).2.2, cliClear_pinned]
    by_cases hc : (w.st.pinned.filter
        (fun p => !((jsSetList ids).contains p))).contains sid
    · exfalso
      have hmem := List.elem_iff.mp hc
      have := List.of_mem_filter hmem
      simp only [Bool.not_eq_true'] at this
      have htrue : (jsSetList ids).contains sid = true := List.elem_iff.mpr hmemset
      simp [htrue] at this
      exact this hmemset
    · simpa using hc
  · unfold deleteSessionsCli
    dsimp only
    rw [show (fun st sid => stateSetRemark sid [] (stateUnpin sid st)) = cliClearStep from rfl]
    rw [(moveLoopCli_frame sd td (jsSetList ids) ⟨[], [], w⟩).2.2,
      cliClear_remarks (jsSetList ids) w.st hwf]
    unfold lookupKey
    rw [List.find?_eq_none.mpr]
    · rfl
    · intro p hp hps
      have := List.of_mem_filter hp
      simp only [Bool.not_eq_true'] at this
      have hpsid : p.1 = sid := by simpa using hps
      rw [hpsid] at this
      have htrue : (jsSetList ids).contains sid = true := List.elem_iff.mpr hmemset
      simp [htrue] at this
      exact this hmemset

/-- C10 witness: deleting `B` with the extension core leaves `B` pinned with
its remark; the CLI core unpins `B` and deletes its remark. -/
theorem claim10_witness :
    (deleteSessionsExt [toStr "home", toStr "sessions"] [toStr "trash"] [toStr "B"]
        ⟨[], [], true, 0, ⟨[toStr "B"], [(toStr "B", toStr "note")], 0⟩⟩).2.st =
      ⟨[toStr "B"], [(toStr "B", toStr "note")], 0⟩ ∧
    (deleteSessionsCli [toStr "home", toStr "sessions"] [toStr "trash"] [toStr "B"]
        ⟨[], [], true, 0, ⟨[toStr "B"], [(toStr "B", toStr "note")], 0⟩⟩).2.st.pinned.contains
        (toStr "B") = false ∧
    lookupKey
      (deleteSessionsCli [toStr "home", toStr "sessions"] [toStr "trash"] [toStr "B"]
        ⟨[], [], true, 0, ⟨[toStr "B"], [(toStr "B", toStr "note")], 0⟩⟩).2.st.remarks
      (toStr "B") = none :=
  claim10_delete_state_frame [toStr "home", toStr "sessions"] [toStr "trash"] [toStr "B"]
    ⟨[], [], true, 0, ⟨[toStr "B"], [(toStr "B", toStr "note")], 0⟩⟩ (toStr "B")
    (by decide) (by decide)

/-! ## Lemmas for the per-session merge (C3) -/

/-- The log lines contributing to one session id, in log order. -/
def groupLines (sid : Str) (lines : List HistoryLine) : List HistoryLine :=
  lines.filter fun l => decide (l.session_id = sid)

/-- The abstract grouping step `listSummaries` applies to the (at most one)
map entry of one session id. -/
def groupStep (pinned : List Str) (remarks : List (Str × Str))
    (cur : List SessionSummary) (l : HistoryLine) : List SessionSummary :=
  match cur with
  | [] => [newSummary pinned remarks l]
  | e :: _ => [mergeSummary remarks l e]

theorem mergeSummary_sessionId (remarks : List (Str × Str)) (l : HistoryLine)
    (s : SessionSummary) : (mergeSummary remarks l s).sessionId = s.sessionId := rfl

theorem filter_map_merge (sid : Str) (f : SessionSummary → SessionSummary)
    (hf : ∀ s, (f s).sessionId = s.sessionId) (acc : List SessionSummary) :
    (acc.map fun s => if s.sessionId = sid then f s else s).filter
        (fun s => decide (s.sessionId = sid)) =
      (acc.filter fun s => decide (s.sessionId = sid)).map f := by
  induction acc with
  | nil => rfl
  | cons a t ih =>
    rw [List.map_cons]
    by_cases ha : a.sessionId = sid
    · have hfa : (f a).sessionId = sid := by rw [hf a]; exact ha
      rw [if_pos ha]
      simp [List.filter_cons, ha, hfa, ih]
    · have hfa : ¬ (f a).sessionId = sid := by rw [hf a]; exact ha
      rw [if_neg ha]
      simp [List.filter_cons, ha, ih]

theorem filter_map_other (q sid : Str) (f : SessionSummary → SessionSummary)
    (hf : ∀ s, (f s).sessionId = s.sessionId) (hne : ¬ q = sid) (acc : List SessionSummary) :
    (acc.map fun s => if s.sessionId = q then f s else s).filter
        (fun s => decide (s.sessionId = sid)) =
      acc.filter fun s => decide (s.sessionId = sid) := by
  induction acc with
  | nil => rfl
  | cons a t ih =>
    rw [List.map_cons]
    by_cases ha : a.sessionId = q
    · have h2 : ¬ a.sessionId = sid := fun hh => hne (ha.symm.trans hh)
      have h3 : ¬ (f a).sessionId = sid := by rw [hf a]; exact h2
      rw [if_pos ha]
      simp [List.filter_cons, h2, h3, ih]
    · rw [if_neg ha]
      by_cases hs : a.sessionId = sid <;> simp [List.filter_cons, hs, ih]

theorem filter_any_false (acc : List SessionSummary) (q : Str)
    (h : acc.filter (fun s => decide (s.sessionId = q)) = []) :
    acc.any (fun s => s.sessionId = q) = false := by
  rw [List.any_eq_false]
  intro s hs
  simp only [decide_eq_true_eq]
  intro hq
  have : s ∈ acc.filter (fun s => decide (s.sessionId = q)) :=
    List.mem_filter.mpr ⟨hs, by simp [hq]⟩
  rw [h] at this
  exact absurd this (List.not_mem_nil s)

theorem filter_any_true (acc : List SessionSummary) (q : Str) (e : SessionSummary)
    (rest : List SessionSummary)
    (h : acc.filter (fun s => decide (s.sessionId = q)) = e :: rest) :
    acc.any (fun s => s.sessionId = q) = true := by
  rw [List.any_eq_true]
  have : e ∈ acc.filter (fun s => decide (s.sessionId = q)) := by
    rw [h]; exact List.mem_cons_self e rest
  exact ⟨e, (List.mem_filter.mp this).1, (List.mem_filter.mp this).2⟩

theorem build_inv (pinned : List Str) (remarks : List (Str × Str)) (sid : Str) :
    ∀ (lines : List HistoryLine) (acc : List SessionSummary),
      (acc.filter (fun s => decide (s.sessionId = sid))).length ≤ 1 →
      (lines.foldl (buildStep pinned remarks []) acc).filter
          (fun s => decide (s.sessionId = sid)) =
        (groupLines sid lines).foldl (groupStep pinned remarks)
          (acc.filter (fun s => decide (s.sessionId = sid))) := by
  intro lines
  induction lines with
  | nil => intro acc _; rfl
  | cons l t ih =>
    intro acc hu
    rw [List.foldl_cons]
    have hsk : searchKeeps [] l = true := rfl
    by_cases hls : l.session_id = sid
    · -- the line belongs to the tracked session
      have hgroup : groupLines sid (l :: t) = l :: groupLines sid t := by
        unfold groupLines
        rw [List.filter_cons, if_pos (by simp [hls])]
      cases hflt : acc.filter (fun s => decide (s.sessionId = sid)) with
      | nil =>
        have hany : acc.any (fun s => s.sessionId = l.session_id) = false := by
          rw [hls]; exact filter_any_false acc sid hflt
        have hstep : buildStep pinned remarks [] acc l = acc ++ [newSummary pinned remarks l] := by
          unfold buildStep
          rw [if_neg (by simp [hsk]), if_neg (by simp [hany])]
        rw [hstep]
        have hfilt2 : (acc ++ [newSummary pinned remarks l]).filter
            (fun s => decide (s.sessionId = sid)) = [newSummary pinned remarks l] := by
          rw [List.filter_append, hflt]
          simp [newSummary, hls]
        rw [ih (acc ++ [newSummary pinned remarks l]) (by rw [hfilt2]; simp), hfilt2,
          hgroup, List.foldl_cons]
        rfl
      | cons e rest =>
        have hrest : rest = [] := by
          rw [hflt] at hu
          simpa using List.length_eq_zero.mp (by simpa using hu)
        subst hrest
        have hany : acc.any (fun s => s.sessionId = l.session_id) = true := by
          rw [hls]; exact filter_any_true acc sid e [] hflt
        have hstep : buildStep pinned remarks [] acc l =
            acc.map fun s => if s.sessionId = l.session_id then mergeSummary remarks l s
              else s := by
          unfold buildStep
          rw [if_neg (by simp [hsk]), if_pos (by simp [hany])]
        rw [hstep]
        have hfilt2 : (acc.map fun s => if s.sessionId = l.session_id then
            mergeSummary remarks l s else s).filter (fun s => decide (s.sessionId = sid)) =
            [mergeSummary remarks l e] := by
          rw [hls, filter_map_merge sid (mergeSummary remarks l)
            (mergeSummary_sessionId remarks l), hflt]
          rfl
        rw [ih _ (by rw [hfilt2]; simp), hfilt2, hgroup, List.foldl_cons]
        rfl
    · -- the line belongs to another session
      have hgroup : groupLines sid (l :: t) = groupLines sid t := by
        unfold groupLines
        rw [List.filter_cons, if_neg (by simp [hls])]
      have hstepf : (buildStep pinned remarks [] acc l).filter
          (fun s => decide (s.sessionId = sid)) =
          acc.filter (fun s => decide (s.sessionId = sid)) := by
        unfold buildStep
        rw [if_neg (by simp [hsk])]
        by_cases hany : acc.any (fun s => s.sessionId = l.session_id)
        · rw [if_pos (by simp [hany])]
          exact filter_map_other l.session_id sid (mergeSummary remarks l)
            (mergeSummary_sessionId remarks l) hls acc
        · rw [if_neg (by simp [hany])]
          rw [List.filter_append]
          simp [newSummary, hls]
      calc (t.foldl (buildStep pinned remarks []) (buildStep pinned remarks [] acc l)).filter
              (fun s => decide (s.sessionId = sid))
          = (groupLines sid t).foldl (groupStep pinned remarks)
              ((buildStep pinned remarks [] acc l).filter
                (fun s => decide (s.sessionId = sid))) := by
            apply ih
            rw [hstepf]
            exact hu
        _ = (groupLines sid (l :: t)).foldl (groupStep pinned remarks)
              (acc.filter (fun s => decide (s.sessionId = sid))) := by
            rw [hstepf, hgroup]

/-- Folding the per-line merge over the rest of a group. -/
def mergeFold (remarks : List (Str × Str)) (e : SessionSummary) (g : List HistoryLine) :
    SessionSummary :=
  g.foldl (fun s l => mergeSummary remarks l s) e

theorem groupFoldl_singleton (pinned : List Str) (remarks : List (Str × Str)) :
    ∀ (g : List HistoryLine) (e : SessionSummary),
      g.foldl (groupStep pinned remarks) [e] = [mergeFold remarks e g] := by
  intro g
  induction g with
  | nil => intro e; rfl
  | cons l t ih =>
    intro e
    rw [List.foldl_cons]
    show t.foldl (groupStep pinned remarks) [mergeSummary remarks l e] = _
    rw [ih (mergeSummary remarks l e)]
    rfl

theorem mergeFold_sessionId (remarks : List (Str × Str)) :
    ∀ (g : List HistoryLine) (e : SessionSummary),
      (mergeFold remarks e g).sessionId = e.sessionId := by
  intro g
  induction g with
  | nil => intro e; rfl
  | cons l t ih => intro e; exact (ih (mergeSummary remarks l e)).trans rfl

theorem mergeFold_lastTs (remarks : List (Str × Str)) :
    ∀ (g : List HistoryLine) (e : SessionSummary),
      (mergeFold remarks e g).lastTs = (g.map (·.ts)).foldl max e.lastTs := by
  intro g
  induction g with
  | nil => intro e; rfl
  | cons l t ih =>
    intro e
    rw [List.map_cons, List.foldl_cons]
    exact ih (mergeSummary remarks l e)

theorem mergeFold_firstTs (remarks : List (Str × Str)) :
    ∀ (g : List HistoryLine) (e : SessionSummary),
      (mergeFold remarks e g).firstTs = (g.map (·.ts)).foldl min e.firstTs := by
  intro g
  induction g with
  | nil => intro e; rfl
  | cons l t ih =>
    intro e
    rw [List.map_cons, List.foldl_cons]
    exact ih (mergeSummary remarks l e)

theorem mergeFold_count (remarks : List (Str × Str)) :
    ∀ (g : List HistoryLine) (e : SessionSummary),
      (mergeFold remarks e g).count = e.count + (g.length : Int) := by
  intro g
  induction g with
  | nil => intro e; simp [mergeFold]
  | cons l t ih =>
    intro e
    rw [show mergeFold remarks e (l :: t) = mergeFold remarks (mergeSummary remarks l e) t
      from rfl]
    rw [ih (mergeSummary remarks l e)]
    show e.count + 1 + (t.length : Int) = e.count + ((l :: t).length : Int)
    rw [List.length_cons]
    push_cast
    ring

theorem listSummariesLines_plain (pinned : List Str) (remarks : List (Str × Str))
    (lines : List HistoryLine) :
    listSummariesLines none none false pinned remarks lines =
      List.insertionSort summaryLe (buildSummaries pinned remarks [] lines) := rfl

/-- C3, counterexample: two log lines for session `s` with turn counts 5 and
7 merge to a summary whose count is 6 — the first line's `turn_count || 1`
plus one per further line — which is neither the sum (12) nor the max (7) of
the contributing turn counts, refuting the claimed sum-or-max rule. -/
theorem claim3_counterexample :
    ((listSummariesLines none none false [] []
        [⟨toStr "s", 1, none, none, some (toStr "a"), some 5, none⟩,
         ⟨toStr "s", 2, none, none, some (toStr "b"), some 7, none⟩]).map (·.count) =
      [6]) ∧
    (6 : Int) ≠ 5 + 7 ∧ (6 : Int) ≠ max 5 7 := by
  refine ⟨by decide, by decide, by decide⟩

/-- C3 (amended): for a log whose lines for a session id number two or more,
`listSummaries` returns exactly one summary for that id; its `lastTs` is the
maximum and its `firstTs` the minimum timestamp over the contributing lines,
and its count follows the deterministic rule "`turn_count || 1` of the first
contributing line plus one per additional contributing line" — not the sum
or max of the lines' turn counts. -/
theorem claim3_merge_one_summary (pinned : List Str) (remarks : List (Str × Str))
    (lines : List HistoryLine) (sid : Str)
    (h2 : 2 ≤ (groupLines sid lines).length) :
    (listSummariesLines none none false pinned remarks lines).countP
        (fun s => decide (s.sessionId = sid)) = 1 ∧
    ((listSummariesLines none none false pinned remarks lines).find?
        (fun s => decide (s.sessionId = sid))).map (·.lastTs) =
      ((groupLines sid lines).map (·.ts)).max? ∧
    ((listSummariesLines none none false pinned remarks lines).find?
        (fun s => decide (s.sessionId = sid))).map (·.firstTs) =
      ((groupLines sid lines).map (·.ts)).min? ∧
    ((listSummariesLines none none false pinned remarks lines).find?
        (fun s => decide (s.sessionId = sid))).map (·.count) =
      (groupLines sid lines).head?.map
        (fun h => jsOrInt h.turn_count 1 + ((groupLines sid lines).length : Int) - 1) := by
  cases hg : groupLines sid lines with
  | nil => rw [hg] at h2; simp at h2
  | cons h t =>
    have hbase : (buildSummaries pinned remarks [] lines).filter
        (fun s => decide (s.sessionId = sid)) =
        [mergeFold remarks (newSummary pinned remarks h) t] := by
      unfold buildSummaries
      rw [build_inv pinned remarks sid lines [] (by simp)]
      rw [List.filter_nil, hg, List.foldl_cons]
      show t.foldl (groupStep pinned remarks) [newSummary pinned remarks h] = _
      exact groupFoldl_singleton pinned remarks t (newSummary pinned remarks h)
    have hperm := List.perm_insertionSort summaryLe (buildSummaries pinned remarks [] lines)
    have hfr : (listSummariesLines none none false pinned remarks lines).filter
        (fun s => decide (s.sessionId = sid)) =
        [mergeFold remarks (newSummary pinned remarks h) t] := by
      rw [listSummariesLines_plain]
      apply List.perm_singleton.mp
      rw [← hbase]
      exact hperm.filter _
    refine ⟨?_, ?_, ?_, ?_⟩
    · rw [List.countP_eq_length_filter, hfr]
      rfl
    · rw [find?_eq_head?_filter, hfr]
      show some (mergeFold remarks (newSummary pinned remarks h) t).lastTs = _
      rw [mergeFold_lastTs]
      rfl
    · rw [find?_eq_head?_filter, hfr]
      show some (mergeFold remarks (newSummary pinned remarks h) t).firstTs = _
      rw [mergeFold_firstTs]
      rfl
    · rw [find?_eq_head?_filter, hfr]
      show some (mergeFold remarks (newSummary pinned remarks h) t).count = _
      rw [mergeFold_count]
      show some ((newSummary pinned remarks h).count + (t.length : Int)) =
        some (jsOrInt h.turn_count 1 + ((t.length + 1 : Nat) : Int) - 1)
      congr 1
      show jsOrInt h.turn_count 1 + (t.length : Int) = _
      push_cast
      ring

/-- C3 witness: the two-line session of the counterexample satisfies the
amended merge rule: one summary, `lastTs` 2, `firstTs` 1, count `5 + 1`. -/
theorem claim3_witness :
    (listSummariesLines none none false [] []
        [⟨toStr "s", 1, none, none, some (toStr "a"), some 5, none⟩,
         ⟨toStr "s", 2, none, none, some (toStr "b"), some 7, none⟩]).countP
        (fun s => decide (s.sessionId = toStr "s")) = 1 ∧
    ((listSummariesLines none none false [] []
        [⟨toStr "s", 1, none, none, some (toStr "a"), some 5, none⟩,
         ⟨toStr "s", 2, none, none, some (toStr "b"), some 7, none⟩]).find?
        (fun s => decide (s.sessionId = toStr "s"))).map (·.lastTs) =
      ((groupLines (toStr "s")
        [⟨toStr "s", 1, none, none, some (toStr "a"), some 5, none⟩,
         ⟨toStr "s", 2, none, none, some (toStr "b"), some 7, none⟩]).map (·.ts)).max? ∧
    ((listSummariesLines none none false [] []
        [⟨toStr "s", 1, none, none, some (toStr "a"), some 5, none⟩,
         ⟨toStr "s", 2, none, none, some (toStr "b"), some 7, none⟩]).find?
        (fun s => decide (s.sessionId = toStr "s"))).map (·.firstTs) =
      ((groupLines (toStr "s")
        [⟨toStr "s", 1, none, none, some (toStr "a"), some 5, none⟩,
         ⟨toStr "s", 2, none, none, some (toStr "b"), some 7, none⟩]).map (·.ts)).min? ∧
    ((listSummariesLines none none false [] []
        [⟨toStr "s", 1, none, none, some (toStr "a"), some 5, none⟩,
         ⟨toStr "s", 2, none, none, some (toStr "b"), some 7, none⟩]).find?
        (fun s => decide (s.sessionId = toStr "s"))).map (·.count) =
      (groupLines (toStr "s")
        [⟨toStr "s", 1, none, none, some (toStr "a"), some 5, none⟩,
         ⟨toStr "s", 2, none, none, some (toStr "b"), some 7, none⟩]).head?.map
        (fun h => jsOrInt h.turn_count 1 +
          ((groupLines (toStr "s")
            [⟨toStr "s", 1, none, none, some (toStr "a"), some 5, none⟩,
             ⟨toStr "s", 2, none, none, some (toStr "b"), some 7, none⟩]).length : Int) - 1) :=
  claim3_merge_one_summary [] []
    [⟨toStr "s", 1, none, none, some (toStr "a"), some 5, none⟩,
     ⟨toStr "s", 2, none, none, some (toStr "b"), some 7, none⟩]
    (toStr "s") (by decide)

/-! ## Lemmas for delete-time file moves (C1) -/

theorem isPrefixOf_append (l r : Path) : l.isPrefixOf (l ++ r) = true := by
  induction l with
  | nil => simp [List.isPrefixOf]
  | cons a t ih => simpa [List.isPrefixOf] using ih

theorem lookupT_moveFile_ne (files : List (Str × Transcript)) (sid sid' : Str)
    (dest : Path) (h : ¬ sid' = sid) :
    lookupT (moveFile files sid dest) sid' = lookupT files sid' := by
  unfold lookupT moveFile
  induction files with
  | nil => rfl
  | cons e t ih =>
    rw [List.map_cons, List.find?_cons, List.find?_cons]
    have hkey : ((if e.1 = sid then (e.1, { e.2 with path := dest }) else e) :
        Str × Transcript).1 = e.1 := by
      split <;> rfl
    by_cases hs : e.1 = sid'
    · have he : ¬ e.1 = sid := fun hh => h (hs.symm.trans hh)
      rw [if_neg he, show (decide (e.1 = sid')) = true by simpa using hs]
    · rw [show (decide ((if e.1 = sid then (e.1, { e.2 with path := dest }) else e :
          Str × Transcript).1 = sid')) = false by rw [hkey]; simpa using hs]
      rw [show (decide (e.1 = sid')) = false by simpa using hs]
      exact ih

theorem lookupT_moveFile_self (files : List (Str × Transcript)) (sid : Str)
    (dest : Path) (t : Transcript) (h : lookupT files sid = some t) :
    lookupT (moveFile files sid dest) sid = some { t with path := dest } := by
  unfold lookupT moveFile
  unfold lookupT at h
  induction files with
  | nil => simp at h
  | cons e ts ih =>
    rw [List.map_cons, List.find?_cons]
    by_cases he : e.1 = sid
    · rw [if_pos he]
      rw [List.find?_cons, show (decide (e.1 = sid)) = true by simpa using he] at h
      have ht : e.2 = t := by simpa using h
      rw [show (decide ((e.1, { e.2 with path := dest }).1 = sid)) = true by simpa using he]
      simp [ht]
    · rw [if_neg he]
      rw [List.find?_cons, show (decide (e.1 = sid)) = false by simpa using he] at h
      rw [show (decide (e.1 = sid)) = false by simpa using he]
      exact ih h

theorem moveLoop_preserve (sd td : Path) (sid : Str) (L : List Str) :
    ∀ acc : MoveAcc, sid ∉ L →
      lookupT ((L.foldl (deleteMoveStep sd td) acc).w.files) sid =
        lookupT acc.w.files sid := by
  induction L with
  | nil => intro acc _; rfl
  | cons a t ih =>
    intro acc hn
    have hna : ¬ sid = a := fun hh => hn (hh ▸ List.mem_cons_self a t)
    have hnt : sid ∉ t := fun hh => hn (List.mem_cons_of_mem a hh)
    rw [List.foldl_cons, ih (deleteMoveStep sd td acc a) hnt]
    unfold deleteMoveStep
    cases findSessionFile sd acc.w.files a with
    | none => rfl
    | some p => exact lookupT_moveFile_ne acc.w.files a sid _ hna

theorem jsSetAux_nodup (l : List Str) :
    ∀ seen : List Str, (jsSetAux seen l).Nodup := by
  induction l with
  | nil => intro seen; exact List.nodup_nil
  | cons a t ih =>
    intro seen
    unfold jsSetAux
    by_cases h : seen.contains a
    · rw [if_pos h]; exact ih seen
    · rw [if_neg h]
      refine List.nodup_cons.mpr ⟨?_, ih (a :: seen)⟩
      intro hmem
      exact ((mem_jsSetAux a t (a :: seen)).mp hmem).2 (List.mem_cons_self a seen)

theorem moveLoop_locates (sd td : Path) (sid : Str) (t : Transcript) (rel : Path)
    (htd : ∀ c ∈ td, ¬ c = toStr "..") (hrelc : ∀ c ∈ rel, ¬ c = toStr "..")
    (L : List Str) :
    ∀ acc : MoveAcc, L.Nodup → sid ∈ L →
      lookupT acc.w.files sid = some t → t.path = sd ++ rel →
      lookupT ((L.foldl (deleteMoveStep sd td) acc).w.files) sid =
        some { t with path := td ++ [toStr "sessions"] ++ rel } := by
  induction L with
  | nil => intro acc _ hm; exact absurd hm (List.not_mem_nil sid)
  | cons a L' ih =>
    intro acc hnd hm hl hp
    rw [List.foldl_cons]
    by_cases ha : a = sid
    · subst ha
      have hnotin : a ∉ L' := (List.nodup_cons.mp hnd).1
      rw [moveLoop_preserve sd td a L' (deleteMoveStep sd td acc a) hnotin]
      unfold deleteMoveStep
      have hfind : findSessionFile sd acc.w.files a = some t.path := by
        apply findSessionFile_of_located sd acc.w.files a t hl
        left
        rw [hp]
        exact isPrefixOf_append sd rel
      rw [hfind]
      dsimp only
      have hbase : ∀ c ∈ td ++ [toStr "sessions"], ¬ c = toStr ".." := by
        intro c hc
        rcases List.mem_append.mp hc with h | h
        · exact htd c h
        · rcases List.mem_singleton.mp h with rfl
          decide
      have hdest : joinP (td ++ [toStr "sessions"]) (pathRelative sd t.path) =
          td ++ [toStr "sessions"] ++ rel := by
        rw [hp, pathRelative_append,
          joinP_no_dotdot (td ++ [toStr "sessions"]) rel hbase hrelc, List.append_assoc]
      rw [hdest]
      exact lookupT_moveFile_self acc.w.files a _ t hl
    · have hm' : sid ∈ L' := by
        rcases List.mem_cons.mp hm with rfl | hx
        · exact absurd rfl ha
        · exact hx
      apply ih (deleteMoveStep sd td acc a) (List.nodup_cons.mp hnd).2 hm' ?_ hp
      unfold deleteMoveStep
      cases findSessionFile sd acc.w.files a with
      | none => exact hl
      | some p =>
        exact (lookupT_moveFile_ne acc.w.files a sid _ (fun hh => ha hh.symm)).trans hl

/-- A history line parses and carries a `session_id`. -/
def parsedLine (l : RawLine) : Bool :=
  match l.json with
  | some o => o.session_id.isSome
  | none => false

/-- C1: for a log all of whose lines are non-blank, parse, and carry session
ids, and for any deletion set, `deleteSessions` rewrites the log to exactly
the lines whose parsed `session_id` is not in the set, reports
`removedHistory` as the number of raw lines whose `session_id` is in the set,
and moves the located transcript file of each deleted id (here located at
relative path `rel` under the sessions directory) into the trash tree at the
same relative path, `trash/sessions/<rel>`. -/
theorem claim1_delete_exact (sd td : Path) (ids : List Str) (w : World) (sid : Str)
    (t : Transcript) (rel : Path)
    (hE : w.logExists = true)
    (hblank : ∀ l ∈ w.log, trimS l.text ≠ [])
    (hparse : ∀ l ∈ w.log, parsedLine l = true)
    (hsid : sid ∈ ids)
    (ht : lookupT w.files sid = some t)
    (hrel : t.path = sd ++ rel)
    (htd : ∀ c ∈ td, ¬ c = toStr "..")
    (hrelc : ∀ c ∈ rel, ¬ c = toStr "..") :
    ((deleteSessionsExt sd td ids w).2.log =
        w.log.filter fun l =>
          match l.json with
          | some o =>
            match o.session_id with
            | some s => !ids.contains s
            | none => true
          | none => true) ∧
    ((deleteSessionsExt sd td ids w).1.removedHistory =
        w.log.countP fun l =>
          match l.json with
          | some o =>
            match o.session_id with
            | some s => ids.contains s
            | none => false
          | none => false) ∧
    (lookupT (deleteSessionsExt sd td ids w).2.files sid =
        some { t with path := td ++ [toStr "sessions"] ++ rel }) := by
  have hframe := moveLoop_frame sd td (jsSetList ids) ⟨[], [], w⟩
  unfold deleteSessionsExt
  dsimp only
  rw [hframe.1, hframe.2.1, hE]
  simp only [if_true]
  rw [rewriteHistoryExcluding_eq]
  refine ⟨?_, ?_, ?_⟩
  · apply List.filter_congr
    intro l hl
    unfold keepLine
    rw [if_neg (by simpa using hblank l hl)]
    cases l.json with
    | none => rfl
    | some o => rfl
  · apply List.countP_congr
    intro l hl
    unfold dropCounted
    rw [if_neg (by simpa using hblank l hl)]
    cases l.json with
    | none => exact Iff.rfl
    | some o => exact Iff.rfl
  · exact moveLoop_locates sd td sid t rel htd hrelc (jsSetList ids) ⟨[], [], w⟩
      (jsSetAux_nodup ids []) ((mem_jsSetList sid ids).mpr hsid) ht hrel

/-- C1 witness: deleting `B` from a three-line log `A, B, B` keeps exactly
the `A` line, reports two removed lines, and moves `B`'s transcript from
`sessions/b.jsonl` to `trash/sessions/b.jsonl`. -/
theorem claim1_witness :
    let la : RawLine := ⟨toStr "la", some { session_id := some (toStr "A"), ts := some 1 }⟩
    let lb1 : RawLine := ⟨toStr "lb1", some { session_id := some (toStr "B"), ts := some 2 }⟩
    let lb2 : RawLine := ⟨toStr "lb2", some { session_id := some (toStr "B"), ts := some 3 }⟩
    let w : World :=
      ⟨[(toStr "B", ⟨[toStr "sessions", toStr "b.jsonl"], []⟩)],
       [la, lb1, lb2], true, 0, ⟨[], [], 0⟩⟩
    ((deleteSessionsExt [toStr "sessions"] [toStr "trash"] [toStr "B"] w).2.log =
        [la, lb1, lb2].filter fun l =>
          match l.json with
          | some o =>
            match o.session_id with
            | some s => !([toStr "B"].contains s)
            | none => true
          | none => true) ∧
    ((deleteSessionsExt [toStr "sessions"] [toStr "trash"] [toStr "B"] w).1.removedHistory =
        [la, lb1, lb2].countP fun l =>
          match l.json with
          | some o =>
            match o.session_id with
            | some s => [toStr "B"].contains s
            | none => false
          | none => false) ∧
    (lookupT (deleteSessionsExt [toStr "sessions"] [toStr "trash"] [toStr "B"] w).2.files
        (toStr "B") =
      some ⟨[toStr "trash", toStr "sessions", toStr "b.jsonl"], []⟩) :=
  claim1_delete_exact [toStr "sessions"] [toStr "trash"] [toStr "B"]
    ⟨[(toStr "B", ⟨[toStr "sessions", toStr "b.jsonl"], []⟩)],
     [⟨toStr "la", some { session_id := some (toStr "A"), ts := some 1 }⟩,
      ⟨toStr "lb1", some { session_id := some (toStr "B"), ts := some 2 }⟩,
      ⟨toStr "lb2", some { session_id := some (toStr "B"), ts := some 3 }⟩],
     true, 0, ⟨[], [], 0⟩⟩
    (toStr "B") ⟨[toStr "sessions", toStr "b.jsonl"], []⟩ [toStr "b.jsonl"]
    rfl (by decide) (by decide) (by decide) (by decide) rfl (by decide) (by decide)

end CodexHist
